import Mathlib

/-!
# Recouple — verification of the deterministic game engine

Shallow embedding of the scoring/topology engine (`src/unnamed/part_000`,
the v3 "Simplified Scoring Engine"), the draft generator (`src/js/draft.js`)
and the v2 draft generator (`src/unnamed/part_001`), together with theorems
settling the specification claims.

JS conventions used in the embedding:
* a JS array of slots is a `List (Option Card)`; `board[i]` on an in-range
  index is `List.getD i none` (out-of-range reads yield `undefined`,
  modelled by the default `none`);
* the mutable PRNG closure of `mulberry32` becomes explicit state passing
  of the 32-bit unsigned state, with every wrap-around made explicit via
  `% 2^32`;
* JS number arithmetic on the small integer scores is exact, modelled by
  `Nat`/`Int`/`Rat`; `Math.round` is `⌊q + 1/2⌋`.
-/

namespace Scoring

/-- A drafted contestant card as consumed by the scoring engine
(`src/unnamed/part_000`): character fields plus the rarity tier `stars`.
The JS field `show` is kept under the name `show_` (`show` is a Lean
keyword); `couple` is the optional paired-with back-reference (absent or
empty string in JS becomes `none`). -/
structure Card where
  name : String
  tags : List String
  show_ : String
  seasonNum : Int
  couple : Option String
  stars : Nat
deriving DecidableEq, Repr

/-- `const NUM_SLOTS = 9` (part_000, line 19). -/
def NUM_SLOTS : Nat := 9

/-- `const EDGES = [...]` (part_000, lines 21–38). -/
def EDGES : List (Nat × Nat) :=
  [(0, 1), (0, 2), (0, 3), (1, 4), (1, 5), (3, 4), (3, 2), (4, 5),
   (3, 6), (3, 8), (4, 7), (4, 8), (2, 6), (5, 7), (6, 8), (7, 8)]

/-- One `ADJACENCY[a].push(b)` step of the adjacency construction. -/
def pushAt (adj : List (List Nat)) (a b : Nat) : List (List Nat) :=
  adj.set a (adj.getD a [] ++ [b])

/-- `ADJACENCY` built from `EDGES` exactly as part_000 lines 40–44:
for each edge push each endpoint into the other's neighbor list. -/
def ADJACENCY : List (List Nat) :=
  EDGES.foldl (fun adj e => pushAt (pushAt adj e.1 e.2) e.2 e.1)
    (List.replicate NUM_SLOTS [])

/-- `const SLOT_TAGS = [null, 'bombshell', null, 'usa', 'uk', null, null, null, 'casa']`
(part_000, line 47); `null` is `none`. -/
def SLOT_TAGS : List (Option String) :=
  [none, some "bombshell", none, some "usa", some "uk", none, none, none, some "casa"]

/-- Scoring constants (part_000, lines 64–70). -/
def SLOT_MATCH_PTS : Nat := 2
def COUNTRY_MATCH_PTS : Nat := 2
def SEASON_MATCH_PTS : Nat := 1
def COUNTRY_SEASON_COMBO : Nat := 2
def COUPLE_BONUS_PTS : Nat := 4

/-- `RARITY_BASE = { 1: 0, 2: 1, 3: 2, 4: 3 }` with the JS `|| 0` fallback
for a missing key (part_000 line 70 and its uses on lines 123 and 190). -/
def RARITY_BASE (stars : Nat) : Nat :=
  if stars = 1 then 0 else if stars = 2 then 1
  else if stars = 3 then 2 else if stars = 4 then 3 else 0

/-- `isValidPlacement(contestant, slotIndex)` (part_000, lines 75–80):
`null` contestant is never valid; a wildcard slot (tag `null`) accepts
anything; otherwise the card's tag list must contain the slot tag. -/
def isValidPlacement (contestant : Option Card) (slotIndex : Nat) : Bool :=
  match contestant with
  | none => false
  | some c =>
    match SLOT_TAGS.getD slotIndex none with
    | none => true
    | some tag => c.tags.contains tag

/-- `isWildSlot(slotIndex)` (part_000, lines 82–84). -/
def isWildSlot (slotIndex : Nat) : Bool :=
  (SLOT_TAGS.getD slotIndex none).isNone

/-- A recorded connection (`conn` object, part_000 line 130). -/
structure Conn where
  neighborIndex : Nat
  points : Nat
  types : List String
deriving DecidableEq, Repr, Inhabited

/-- `c.couple && c.couple === nc.name || nc.couple && nc.couple === c.name`
(part_000, line 133). -/
def isCouple (c nc : Card) : Bool :=
  (match c.couple with | some p => p == nc.name | none => false) ||
  (match nc.couple with | some p => p == c.name | none => false)

/-- The connection record the per-cell loop builds for occupied neighbor
`ni` (part_000, lines 130–142): country/season/combo points and types,
then the couple bonus on top. -/
def connBetween (c nc : Card) (ni : Nat) : Conn :=
  let sameCountry := c.show_ == nc.show_
  let sameSeason := c.seasonNum == nc.seasonNum
  let base : Nat × List String :=
    if sameCountry && sameSeason then
      (COUNTRY_MATCH_PTS + SEASON_MATCH_PTS + COUNTRY_SEASON_COMBO, ["combo"])
    else
      ((if sameCountry then COUNTRY_MATCH_PTS else 0) +
        (if sameSeason then SEASON_MATCH_PTS else 0),
       (if sameCountry then ["country"] else []) ++
        (if sameSeason then ["season"] else []))
  let withCouple : Nat × List String :=
    if isCouple c nc then (base.1 + COUPLE_BONUS_PTS, base.2 ++ ["couple"])
    else base
  { neighborIndex := ni, points := withCouple.1, types := withCouple.2 }

/-- The connection record for neighbor `ni`, or `none` when the neighbor
slot is empty or the connection scores zero points (the
`if (conn.points > 0)` guard on part_000 line 144, under which the loop
both records the connection and adds its points). -/
def connOpt (c : Card) (nc : Option Card) (ni : Nat) : Option Conn :=
  match nc with
  | none => none
  | some nc =>
    let conn := connBetween c nc ni
    if conn.points > 0 then some conn else none

/-- The points the per-cell loop adds for neighbor `ni`: zero when the
neighbor is empty or the guarded connection is not recorded. -/
def connPts (c : Option Card) (nc : Option Card) : Nat :=
  match c, nc with
  | some c, some nc =>
    let conn := connBetween c nc 0
    if conn.points > 0 then conn.points else 0
  | _, _ => 0

/-- Slot-match points of a cell (part_000, lines 117–120):
`SLOT_MATCH_PTS` when the slot is not wild and the placement is valid. -/
def cellSlotPts (c : Option Card) (i : Nat) : Nat :=
  match c with
  | none => 0
  | some c =>
    if (!isWildSlot i) && isValidPlacement (some c) i then SLOT_MATCH_PTS else 0

/-- Rarity points of a cell (part_000, line 123). -/
def cellRarityPts (c : Option Card) : Nat :=
  match c with
  | none => 0
  | some c => RARITY_BASE c.stars

/-- Per-cell score record (the `cell` object, part_000 lines 102–113). -/
structure CellScore where
  index : Nat
  slotTag : Option String
  isValid : Option Bool
  isWild : Bool
  slotPoints : Nat
  rarityPoints : Nat
  connectionPoints : Nat
  totalPoints : Nat
  connections : List Conn
deriving DecidableEq, Repr, Inhabited

/-- The connections recorded for cell `i`: the neighbor loop of part_000
lines 126–148, which pushes the connection exactly when its points are
positive. -/
def cellConns (board : List (Option Card)) (i : Nat) : List Conn :=
  match board.getD i none with
  | none => []
  | some c =>
    (ADJACENCY.getD i []).filterMap (fun ni => connOpt c (board.getD ni none) ni)

/-- The connection points accumulated for cell `i` by the same loop
(each neighbor contributes its guarded points; unrecorded connections
contribute 0). -/
def cellConnPts (board : List (Option Card)) (i : Nat) : Nat :=
  ((ADJACENCY.getD i []).map
    (fun ni => connPts (board.getD i none) (board.getD ni none))).sum

/-- One iteration of the cell loop of `calculateScore`
(part_000, lines 100–152). -/
def scoreCell (board : List (Option Card)) (i : Nat) : CellScore :=
  let c := board.getD i none
  { index := i
    slotTag := SLOT_TAGS.getD i none
    isValid := c.map (fun cc => isValidPlacement (some cc) i)
    isWild := isWildSlot i
    slotPoints := cellSlotPts c i
    rarityPoints := cellRarityPts c
    connectionPoints := cellConnPts board i
    totalPoints := cellSlotPts c i + cellRarityPts c + cellConnPts board i
    connections := cellConns board i }

/-- The deduplicated couple edges (part_000, lines 159–172): walk the
cells' recorded connections, keep each unordered couple edge once. -/
def coupleEdgesOf (cellScores : List CellScore) : List (Nat × Nat) :=
  (cellScores.foldl (fun acc cs =>
    cs.connections.foldl (fun acc conn =>
      if conn.types.contains "couple" then
        let key := (min cs.index conn.neighborIndex, max cs.index conn.neighborIndex)
        if acc.1.contains key then acc
        else (acc.1 ++ [key], acc.2 ++ [(cs.index, conn.neighborIndex)])
      else acc) acc) (([], []) : List (Nat × Nat) × List (Nat × Nat))).2

/-- The full score breakdown (part_000, lines 174–179). -/
structure ScoreResult where
  total : Nat
  totalSlot : Nat
  totalRarity : Nat
  totalConnections : Nat
  gridBonus : Nat
  allFilled : Bool
  allValid : Bool
  cellScores : List CellScore
  coupleEdges : List (Nat × Nat)
  edgeCount : Nat
deriving Repr

/-- `calculateScore(board)` (part_000, lines 97–180). -/
def calculateScore (board : List (Option Card)) : ScoreResult :=
  let cellScores := (List.range NUM_SLOTS).map (scoreCell board)
  let totalSlot := (cellScores.map (·.slotPoints)).sum
  let totalRarity := (cellScores.map (·.rarityPoints)).sum
  let totalConnections := (cellScores.map (·.connectionPoints)).sum
  { total := totalSlot + totalRarity + totalConnections
    totalSlot := totalSlot
    totalRarity := totalRarity
    totalConnections := totalConnections
    gridBonus := 0
    allFilled := board.all (·.isSome)
    allValid := board.enum.all (fun p => p.2.isSome && isValidPlacement p.2 p.1)
    cellScores := cellScores
    coupleEdges := coupleEdgesOf cellScores
    edgeCount := EDGES.length }

/-- Per-cell part of `_fastScore` (part_000, lines 186–191): slot match
checked directly against the tag, plus rarity. -/
def fastCellPts (c : Option Card) (i : Nat) : Nat :=
  match c with
  | none => 0
  | some c =>
    (match SLOT_TAGS.getD i none with
     | none => 0
     | some tag => if c.tags.contains tag then SLOT_MATCH_PTS else 0) +
    RARITY_BASE c.stars

/-- Per-edge points of `_fastScore` (part_000, lines 195–199), before the
final doubling; 0 when either endpoint is empty. -/
def fastEdgePts (ca cb : Option Card) : Nat :=
  match ca, cb with
  | some ca, some cb =>
    let sc := ca.show_ == cb.show_
    let ss := ca.seasonNum == cb.seasonNum
    let e :=
      if sc && ss then COUNTRY_MATCH_PTS + SEASON_MATCH_PTS + COUNTRY_SEASON_COMBO
      else (if sc then COUNTRY_MATCH_PTS else 0) + (if ss then SEASON_MATCH_PTS else 0)
    if isCouple ca cb then e + COUPLE_BONUS_PTS else e
  | _, _ => 0

/-- `_fastScore(board)` (part_000, lines 184–203): per-cell slot+rarity,
then each topology edge counted once and doubled. -/
def _fastScore (board : List (Option Card)) : Nat :=
  ((List.range 9).map (fun i => fastCellPts (board.getD i none) i)).sum +
  (EDGES.map (fun e => fastEdgePts (board.getD e.1 none) (board.getD e.2 none) * 2)).sum

end Scoring

/-- Pointwise update of the counter array `c` of the permutation loop
(`c[i] = v`); the length-9 JS array of naturals is modelled as a function
`Nat → Nat` (all indices used are < 9). -/
def cset (c : Nat → Nat) (i v : Nat) : Nat → Nat :=
  fun j => if j = i then v else c j

/-- Termination measure for the iterative Heap's-algorithm loop of
`calculateOptimal`: a weighted count of the counter increments still
available at or above the scan position, plus the distance of the scan
position from 9. Decreases on both loop branches. -/
def heapMeasure (c : Nat → Nat) (i : Nat) : Nat :=
  (if i ≤ 1 then (1 - c 1) * 18 else 0) +
  (if i ≤ 2 then (2 - c 2) * 54 else 0) +
  (if i ≤ 3 then (3 - c 3) * 216 else 0) +
  (if i ≤ 4 then (4 - c 4) * 1080 else 0) +
  (if i ≤ 5 then (5 - c 5) * 6480 else 0) +
  (if i ≤ 6 then (6 - c 6) * 45360 else 0) +
  (if i ≤ 7 then (7 - c 7) * 362880 else 0) +
  (if i ≤ 8 then (8 - c 8) * 3265920 else 0) +
  (9 - i)

/-- The measure decreases on the swap-and-restart branch of the loop. -/
theorem heapMeasure_A (c : Nat → Nat) (i : Nat) (h9 : i < 9) (hA : c i < i) :
    heapMeasure (cset c i (c i + 1)) 1 < heapMeasure c i := by
  interval_cases i <;> simp [heapMeasure, cset] <;> omega

/-- The measure decreases on the carry branch of the loop. -/
theorem heapMeasure_B (c : Nat → Nat) (i : Nat) (h9 : i < 9) (hB : ¬ c i < i) :
    heapMeasure (cset c i 0) (i + 1) < heapMeasure c i := by
  interval_cases i <;> simp [heapMeasure, cset] <;> omega

/-- The JS destructuring swap `[a[i], a[j]] = [a[j], a[i]]` on a JS array
with in-range indices; for out-of-range indices (never reached by the
callers below) the list is returned unchanged. -/
def applySwap {α : Type} (l : List α) (s : Nat × Nat) : List α :=
  match l[s.1]?, l[s.2]? with
  | some x, some y => (l.set s.1 y).set s.2 x
  | _, _ => l

namespace Draft

/-- One draw of the Mulberry32 PRNG (`src/js/draft.js`, lines 14–22),
with the closure's mutable `seed` made an explicit state. All 32-bit
wrap-arounds (`| 0`, `Math.imul`, the `ToInt32` before `^`) are explicit
`% 2^32` on the unsigned representative; `>>>` is `Nat` shift-right on
that representative. Returns `(newState, t)` where the JS call returns
the float `t / 2^32`. -/
def mulberry32 (seed : Nat) : Nat × Nat :=
  let s := (seed + 0x6D2B79F5) % 2 ^ 32
  let t1 := ((s ^^^ (s >>> 15)) * (1 ||| s)) % 2 ^ 32
  let t2 := ((t1 + ((t1 ^^^ (t1 >>> 7)) * (61 ||| t1)) % 2 ^ 32) % 2 ^ 32) ^^^ t1
  (s, t2 ^^^ (t2 >>> 14))

/-- `getDailySeed(date, gameNumber)` (`src/js/draft.js`, lines 27–35).
The `new Date(date)` projection to year/month/day is modelled by passing
the calendar fields directly (`month` already 1-based as in
`getMonth() + 1`). For `gameNumber` outside {1,2,3} the JS lookup is
`undefined`; the claims only quantify over 1..3, where `getD` agrees. -/
def getDailySeed (year month day gameNumber : Nat) : Nat :=
  let base := year * 10000 + month * 100 + day
  base * ([1, 7919, 104729].getD (gameNumber - 1) 0) + gameNumber * 31337

/-- `RARITY_TABLE` (`src/js/draft.js`, lines 38–51), with the float
probabilities as exact rationals. -/
def RARITY_TABLE : List (List ℚ) :=
  [[3/10, 35/100, 25/100, 10/100],
   [35/100, 35/100, 22/100, 8/100],
   [40/100, 35/100, 18/100, 7/100],
   [45/100, 32/100, 16/100, 7/100],
   [50/100, 30/100, 14/100, 6/100],
   [55/100, 28/100, 12/100, 5/100],
   [60/100, 25/100, 11/100, 4/100],
   [65/100, 23/100, 9/100, 3/100],
   [70/100, 20/100, 8/100, 2/100],
   [75/100, 18/100, 6/100, 1/100],
   [80/100, 15/100, 4/100, 1/100],
   [85/100, 13/100, 2/100, 0]]

/-- `STAR_POINTS = { 1: 1, 2: 2, 3: 3, 4: 5 }` (`src/js/draft.js`, line 53). -/
def STAR_POINTS (s : Nat) : Nat :=
  if s = 1 then 1 else if s = 2 then 2 else if s = 3 then 3
  else if s = 4 then 5 else 0

/-- The cumulative-probability walk of `rollStarRating`
(`src/js/draft.js`, lines 58–67): stars 1..4, fallback 1. -/
def rollLoop (roll : ℚ) (probs : List ℚ) (cumulative : ℚ) (star : Nat) : Nat :=
  if _h : star < 4 then
    let c := cumulative + probs.getD star 0
    if roll < c then star + 1 else rollLoop roll probs c (star + 1)
  else 1
termination_by 4 - star

/-- `rollStarRating(rng, roundIndex)` with the rng state passed
explicitly; returns `(stars, newState)`. The rng float is the exact
rational `t / 2^32`. -/
def rollStarRating (state : Nat) (roundIndex : Nat) : Nat × Nat :=
  let (s', t) := mulberry32 state
  let roll : ℚ := (t : ℚ) / 4294967296
  (rollLoop roll (RARITY_TABLE.getD roundIndex []) 0 0, s')

/-- The Fisher–Yates loop of `seededShuffle` (`src/js/draft.js`,
lines 72–78), counting `i` down; `j = Math.floor(rng() * (i+1))` is the
exact `t * (i+1) / 2^32` in `Nat` division (the JS float computation is
exact for the pool sizes in use). -/
def seededShuffleAux {α : Type} : List α → Nat → Nat → List α × Nat
  | arr, state, 0 => (arr, state)
  | arr, state, i + 1 =>
    let (s', t) := mulberry32 state
    let j := t * (i + 2) / 2 ^ 32
    seededShuffleAux (applySwap arr (i + 1, j)) s' i

/-- `seededShuffle(arr, rng)` (`src/js/draft.js`, lines 72–78). -/
def seededShuffle {α : Type} (arr : List α) (state : Nat) : List α × Nat :=
  seededShuffleAux arr state (arr.length - 1)

/-- A draft card `{ ...contestant, stars, starPoints }`. When `poolIndex`
has run past the pool, `pool[poolIndex++]` is `undefined` and the spread
contributes no character fields: `character` is `none`. -/
structure DraftCard (α : Type) where
  character : Option α
  stars : Nat
  starPoints : Nat
deriving DecidableEq, Repr

/-- One pick of the inner loop of `generateAllRounds`
(`src/js/draft.js`, lines 102–109). -/
def pickOption {α : Type} (pool : List α) (state poolIndex round : Nat) :
    DraftCard α × Nat :=
  let contestant := pool[poolIndex]?
  let (stars, s') := rollStarRating state round
  ({ character := contestant, stars := stars, starPoints := STAR_POINTS stars }, s')

/-- The `for (pick = 0; pick < 3; ...)` loop (`src/js/draft.js`,
lines 101–110); recursion on the picks remaining. Returns the options,
the rng state and the advanced pool index. -/
def pickLoop {α : Type} (pool : List α) :
    Nat → Nat → Nat → Nat → List (DraftCard α) × Nat × Nat
  | state, poolIndex, _round, 0 => ([], state, poolIndex)
  | state, poolIndex, round, picksLeft + 1 =>
    let (card, s') := pickOption pool state poolIndex round
    let (rest, s'', pi'') := pickLoop pool s' (poolIndex + 1) round picksLeft
    (card :: rest, s'', pi'')

/-- The `for (round = 0; round < 12; ...)` loop (`src/js/draft.js`,
lines 99–112); recursion on the rounds remaining, `round` is the current
round index. -/
def roundLoop {α : Type} (pool : List α) :
    Nat → Nat → Nat → Nat → List (List (DraftCard α))
  | _state, _poolIndex, _round, 0 => []
  | state, poolIndex, round, roundsLeft + 1 =>
    let (options, s', pi') := pickLoop pool state poolIndex round 3
    options :: roundLoop pool s' pi' (round + 1) roundsLeft

/-- `generateAllRounds(allContestants, seed)` (`src/js/draft.js`,
lines 89–115): build one rng from the seed, shuffle a copy of the pool,
then 12 rounds of 3 sequential picks. -/
def generateAllRounds {α : Type} (allContestants : List α) (seed : Nat) :
    List (List (DraftCard α)) :=
  let (pool, s1) := seededShuffle allContestants seed
  roundLoop pool s1 0 0 12

end Draft

namespace DraftV2

/-- `RARITY_TABLE` of the v2 draft (`src/unnamed/part_001`, lines 28–38):
9 rows. -/
def RARITY_TABLE : List (List ℚ) :=
  [[3/10, 35/100, 25/100, 10/100],
   [35/100, 35/100, 22/100, 8/100],
   [40/100, 35/100, 18/100, 7/100],
   [45/100, 32/100, 16/100, 7/100],
   [50/100, 30/100, 14/100, 6/100],
   [55/100, 28/100, 12/100, 5/100],
   [65/100, 23/100, 9/100, 3/100],
   [75/100, 18/100, 6/100, 1/100],
   [85/100, 13/100, 2/100, 0]]

/-- `NUM_ROUNDS = 9` (`src/unnamed/part_001`, line 40). -/
def NUM_ROUNDS : Nat := 9

/-- v2 `rollStarRating` (`src/unnamed/part_001`, lines 42–51): same walk,
row index clamped with `Math.min`. -/
def rollStarRating (state : Nat) (roundIndex : Nat) : Nat × Nat :=
  let (s', t) := Draft.mulberry32 state
  let roll : ℚ := (t : ℚ) / 4294967296
  (Draft.rollLoop roll
    (RARITY_TABLE.getD (min roundIndex (RARITY_TABLE.length - 1)) []) 0 0, s')

/-- v2 inner pick loop (`src/unnamed/part_001`, lines 70–76): breaks out
of the round as soon as the pool is exhausted
(`if (poolIndex >= pool.length) break`); each produced card copies a pool
character and sets `starPoints` from `Scoring.RARITY_BASE`. -/
def pickLoop {α : Type} (pool : List α) :
    Nat → Nat → Nat → Nat → List (Draft.DraftCard α) × Nat × Nat
  | state, poolIndex, _round, 0 => ([], state, poolIndex)
  | state, poolIndex, round, picksLeft + 1 =>
    if poolIndex ≥ pool.length then ([], state, poolIndex)
    else
      let contestant := pool[poolIndex]?
      let (stars, s') := rollStarRating state round
      let (rest, s'', pi'') := pickLoop pool s' (poolIndex + 1) round picksLeft
      ({ character := contestant, stars := stars,
         starPoints := Scoring.RARITY_BASE stars } :: rest, s'', pi'')

/-- v2 round loop (`src/unnamed/part_001`, lines 69–78). -/
def roundLoop {α : Type} (pool : List α) :
    Nat → Nat → Nat → Nat → List (List (Draft.DraftCard α))
  | _state, _poolIndex, _round, 0 => []
  | state, poolIndex, round, roundsLeft + 1 =>
    let (options, s', pi') := pickLoop pool state poolIndex round 3
    options :: roundLoop pool s' pi' (round + 1) roundsLeft

/-- v2 `generateAllRounds(allContestants, seed)` (`src/unnamed/part_001`,
lines 61–80). -/
def generateAllRounds {α : Type} (allContestants : List α) (seed : Nat) :
    List (List (Draft.DraftCard α)) :=
  let (pool, s1) := Draft.seededShuffle allContestants seed
  roundLoop pool s1 0 0 NUM_ROUNDS

end DraftV2

/-- The `while (i < 9)` loop of `calculateOptimal`
(`src/unnamed/part_000`, lines 211–225), instrumented to collect the
board produced by every swap instead of folding the running maximum;
`heapLoop` below is the faithful max-accumulating version and is proved
equal to a fold over this visit list. Generic in the slot type since the
loop only swaps positions. -/
def heapVisits {α : Type} (b : List α) (c : Nat → Nat) (i : Nat) :
    List (List α) :=
  if h9 : i < 9 then
    if hA : c i < i then
      let b' := applySwap b (if i % 2 = 0 then (0, i) else (c i, i))
      b' :: heapVisits b' (cset c i (c i + 1)) 1
    else heapVisits b (cset c i 0) (i + 1)
  else []
termination_by heapMeasure c i
decreasing_by
  · exact heapMeasure_A c i h9 hA
  · exact heapMeasure_B c i h9 hA

namespace Scoring

/-- The `while (i < 9)` loop of `calculateOptimal`
(`src/unnamed/part_000`, lines 211–225): Heap's-algorithm permutation
enumeration by index swaps, keeping the running maximum `_fastScore`. -/
def heapLoop (b : List (Option Card)) (c : Nat → Nat) (i best : Nat) : Nat :=
  if h9 : i < 9 then
    if hA : c i < i then
      let b' := applySwap b (if i % 2 = 0 then (0, i) else (c i, i))
      let score := _fastScore b'
      heapLoop b' (cset c i (c i + 1)) 1 (if score > best then score else best)
    else heapLoop b (cset c i 0) (i + 1) best
  else best
termination_by heapMeasure c i
decreasing_by
  · exact heapMeasure_A c i h9 hA
  · exact heapMeasure_B c i h9 hA

/-- The running-maximum update of `calculateOptimal`
(`if (score > bestScore) bestScore = score`). -/
def heapStep (acc : Nat) (x : List (Option Card)) : Nat :=
  if _fastScore x > acc then _fastScore x else acc

/-- The JS `currentScore || 0` on a number. -/
def orZero (n : Nat) : Nat := if n == 0 then 0 else n

/-- `Math.round`: round half toward positive infinity. -/
def jsRound (q : ℚ) : ℤ := ⌊q + 1 / 2⌋

/-- Result record of `calculateOptimal`. -/
structure OptResult where
  optimalScore : Nat
  percentage : ℤ
deriving DecidableEq, Repr

/-- `calculateOptimal(cards, currentScore)` (`src/unnamed/part_000`,
lines 205–229): fallback when not exactly 9 cards, otherwise brute-force
all permutations from the initial board `[...cards]` (a board with every
slot occupied, i.e. `cards.map some`), then the percentage. -/
def calculateOptimal (cards : List Card) (currentScore : Nat) : OptResult :=
  if cards.length ≠ 9 then
    { optimalScore := orZero currentScore, percentage := 100 }
  else
    let board := cards.map some
    let bestScore := heapLoop board (fun _ => 0) 1 (_fastScore board)
    { optimalScore := bestScore
      percentage :=
        if bestScore > 0 then jsRound ((currentScore : ℚ) / (bestScore : ℚ) * 100)
        else 100 }

/-- The connection that `calculateScore` attributes to cell `i` from
neighbor `j`: the entry with `neighborIndex = j` in cell `i`'s recorded
connection list (`none` when the pair scored zero points and was not
recorded). -/
def connFrom (board : List (Option Card)) (i j : Nat) : Option Conn :=
  ((calculateScore board).cellScores.getD i default).connections.find?
    (fun cn => cn.neighborIndex == j)

/-- Connection points attributed to cell `i` from neighbor `j`
(0 when unrecorded). -/
def attributedPoints (board : List (Option Card)) (i j : Nat) : Nat :=
  ((connFrom board i j).map (·.points)).getD 0

/-- Rule tags attributed to cell `i` from neighbor `j`
(empty when unrecorded). -/
def attributedTypes (board : List (Option Card)) (i j : Nat) : List String :=
  ((connFrom board i j).map (·.types)).getD []

end Scoring

/-!
## Abstract swap words

The swap sequence executed by the `calculateOptimal` loop does not depend
on the board contents, only on the counter state. `W k` is the word of
position swaps the loop performs while scanning below level `k`;
`heapVisits` is proved to emit exactly the boards along `W 9`, and the
boards along `W 9` are proved to cover every permutation of the starting
board. -/

/-- The swap performed at level `k` when the counter digit is `v`
(`i % 2 === 0 ? swap(0, i) : swap(c[i], i)`). -/
def sw (k v : Nat) : Nat × Nat := if k % 2 = 0 then (0, k) else (v, k)

/-- Apply a word of swaps left to right. -/
def applyWord {α : Type} (w : List (Nat × Nat)) (b : List α) : List α :=
  w.foldl applySwap b

/-- The boards emitted while applying a word of swaps, one per swap. -/
def wordVisits {α : Type} : List (Nat × Nat) → List α → List (List α)
  | [], _ => []
  | s :: w, b =>
    let b' := applySwap b s
    b' :: wordVisits w b'

/-- The tail of the level-`k` word starting from digit value `v`:
swap `sw k v`, a full sub-word `wk`, and so on up to digit `k - 1`. -/
def innerW (wk : List (Nat × Nat)) (k : Nat) (v : Nat) : List (Nat × Nat) :=
  if v < k then sw k v :: (wk ++ innerW wk k (v + 1)) else []
termination_by k - v

/-- The full word of swaps the loop performs at levels `< k` starting and
ending with counter digits `1..k-1` at zero: `W (k+1)` is `k+1` copies of
`W k` separated by the level-`k` swaps. -/
def W : Nat → List (Nat × Nat)
  | 0 => []
  | k + 1 => W k ++ innerW (W k) k 0

/-- The prefix of `W (k+1)` up to and including the `j`-th level-`k`
swap. -/
def prefW (k : Nat) : Nat → List (Nat × Nat)
  | 0 => []
  | j + 1 => prefW k j ++ W k ++ [sw k j]

/-- Net index action of `innerW` on an index list, computed by composing
with the (small) net action `nk` of the sub-word instead of folding the
whole word; used to keep the per-level decidable facts cheap to check. -/
def netInnerF (nk : List Nat) (k : Nat) : Nat → Nat → List Nat → List Nat
  | 0, _, l => l
  | fuel + 1, v, l =>
    if v < k then
      netInnerF nk k fuel (v + 1) (nk.map (fun p => (applySwap l (sw k v)).getD p 0))
    else l

/-- Net index action of `innerW` on an index list (fuel `k - v` makes the
recursion structural, so the kernel can evaluate it). -/
def netInner (nk : List Nat) (k : Nat) (v : Nat) (l : List Nat) : List Nat :=
  netInnerF nk k (k - v) v l

/-- Net index action of `W k` on `[0, ..., 8]`, computed recursively. -/
def netList : Nat → List Nat
  | 0 => List.range 9
  | k + 1 => netInner (netList k) k 0 (netList k)

/-- Index list of the board reached after `prefW k j`: positions of the
starting board occupying each slot at the `j`-th level-`k` stage. -/
def stage (k : Nat) : Nat → List Nat
  | 0 => List.range 9
  | j + 1 => applySwap ((netList k).map (fun p => (stage k j).getD p 0)) (sw k j)

/-- Coverage at level `k`: from any length-9 board `b`, the boards
visited along the swap word `W k` (counting the start) include every
board obtained from `b` by permuting its first `k` entries and keeping
the entries from position `k` on unchanged. -/
def Covers (k : Nat) : Prop :=
  ∀ ⦃α : Type⦄ (b p : List α), b.length = 9 → p.length = 9 →
    List.Perm (p.take k) (b.take k) → p.drop k = b.drop k →
    p ∈ b :: wordVisits (W k) b

/-!
## Theorems

General lemmas first, then one theorem per claim (with a witness where the
claim theorem carries hypotheses).
-/

/-- Putting the `j`-th element in front while writing `a` at position `j`
permutes `a` onto the front. -/
theorem cons_set_perm {α : Type} : ∀ (t : List α) (j : Nat) (y a : α),
    t[j]? = some y → List.Perm (y :: t.set j a) (a :: t)
  | [], _, _, _, h => by simp at h
  | b :: u, 0, y, a, h => by
    simp at h
    subst_vars
    exact List.Perm.swap a y u
  | b :: u, j + 1, y, a, h => by
    simp at h
    have h1 : List.Perm (y :: b :: u.set j a) (b :: y :: u.set j a) :=
      List.Perm.swap b y _
    have h2 : List.Perm (b :: y :: u.set j a) (b :: a :: u) :=
      (cons_set_perm u j y a h).cons b
    have h3 : List.Perm (b :: a :: u) (a :: b :: u) := List.Perm.swap a b u
    simpa using (h1.trans h2).trans h3

/-- Exchanging the contents of two in-range positions permutes the list. -/
theorem swap_perm {α : Type} : ∀ (l : List α) (i j : Nat) (x y : α),
    l[i]? = some x → l[j]? = some y → List.Perm ((l.set i y).set j x) l
  | [], _, _, _, _, hx, _ => by simp at hx
  | a :: t, 0, 0, x, y, hx, hy => by
    simp at hx hy
    subst_vars
    simp
  | a :: t, 0, j + 1, x, y, hx, hy => by
    simp at hx hy
    subst_vars
    simpa using cons_set_perm t j y x hy
  | a :: t, i + 1, 0, x, y, hx, hy => by
    simp at hx hy
    subst_vars
    simpa using cons_set_perm t i x y hx
  | a :: t, i + 1, j + 1, x, y, hx, hy => by
    simp at hx hy
    simpa using (swap_perm t i j x y hx hy).cons a

/-- `applySwap` permutes the list. -/
theorem applySwap_perm {α : Type} (l : List α) (s : Nat × Nat) :
    List.Perm (applySwap l s) l := by
  rcases h1 : l[s.1]? with _ | x <;> rcases h2 : l[s.2]? with _ | y <;>
    simp [applySwap, h1, h2]
  exact swap_perm l s.1 s.2 x y h1 h2

/-- `applySwap` preserves the length. -/
theorem applySwap_length {α : Type} (l : List α) (s : Nat × Nat) :
    (applySwap l s).length = l.length :=
  (applySwap_perm l s).length_eq

/-- The Fisher–Yates loop permutes the array. -/
theorem seededShuffleAux_perm {α : Type} :
    ∀ (n : Nat) (arr : List α) (s : Nat),
    List.Perm (Draft.seededShuffleAux arr s n).1 arr
  | 0, _, _ => List.Perm.refl _
  | n + 1, arr, _s =>
    (seededShuffleAux_perm n _ _).trans (applySwap_perm arr _)

/-- `seededShuffle` permutes the pool. -/
theorem seededShuffle_perm {α : Type} (arr : List α) (s : Nat) :
    List.Perm (Draft.seededShuffle arr s).1 arr :=
  seededShuffleAux_perm _ arr s

/-- The 12-round pick loop always produces exactly `p` cards, advances
the pool index by exactly `p`, and the cards' character parts are the
pool entries at the consumed positions (`none` past the pool's end). -/
theorem pickLoop_spec {α : Type} (pool : List α) :
    ∀ (p s pi r : Nat),
      (Draft.pickLoop pool s pi r p).1.length = p ∧
      (Draft.pickLoop pool s pi r p).2.2 = pi + p ∧
      (Draft.pickLoop pool s pi r p).1.map (fun card => card.character) =
        (List.range p).map (fun t => pool[pi + t]?) := by
  intro p
  induction p with
  | zero => intro s pi r; exact ⟨rfl, rfl, rfl⟩
  | succ p ih =>
    intro s pi r
    simp only [Draft.pickLoop, Draft.pickOption]
    rcases hro : Draft.rollStarRating s r with ⟨stars, s'⟩
    rcases hrec : Draft.pickLoop pool s' (pi + 1) r p with ⟨rest, s2, pi2⟩
    obtain ⟨ih1, ih2, ih3⟩ := ih s' (pi + 1) r
    rw [hrec] at ih1 ih2 ih3
    dsimp only at ih1 ih2 ih3 ⊢
    refine ⟨by simp [ih1], by omega, ?_⟩
    simp only [List.map_cons, ih3, List.range_succ_eq_map, List.map_map]
    rw [Nat.add_zero]
    refine congrArg _ (List.map_congr_left fun t _ => ?_)
    simp only [Function.comp_apply]
    congr 1
    omega

/-- The 12-round round loop produces exactly `roundsLeft` rounds, each of
exactly 3 cards, whose concatenated character parts read the pool
positions in order. -/
theorem roundLoop_spec {α : Type} (pool : List α) :
    ∀ (rl s pi r : Nat),
      (Draft.roundLoop pool s pi r rl).length = rl ∧
      (∀ o ∈ Draft.roundLoop pool s pi r rl, o.length = 3) ∧
      ((Draft.roundLoop pool s pi r rl).flatten.map (fun card => card.character) =
        (List.range (3 * rl)).map (fun t => pool[pi + t]?)) := by
  intro rl
  induction rl with
  | zero => intro s pi r; exact ⟨rfl, by simp [Draft.roundLoop], rfl⟩
  | succ rl ih =>
    intro s pi r
    simp only [Draft.roundLoop]
    rcases hpk : Draft.pickLoop pool s pi r 3 with ⟨options, s', pi'⟩
    obtain ⟨hp1, hp2, hp3⟩ := pickLoop_spec pool 3 s pi r
    rw [hpk] at hp1 hp2 hp3
    dsimp only at hp1 hp2 hp3
    obtain ⟨ih1, ih2, ih3⟩ := ih s' pi' (r + 1)
    refine ⟨by simp [ih1], ?_, ?_⟩
    · intro o ho
      rcases List.mem_cons.mp ho with h | h
      · rw [h]; exact hp1
      · exact ih2 o h
    · rw [List.flatten_cons, List.map_append, hp3, ih3, hp2]
      have h3 : 3 * (rl + 1) = 3 + 3 * rl := by omega
      rw [h3, List.range_add, List.map_append, List.map_map]
      congr 1
      refine List.map_congr_left fun t _ => ?_
      simp only [Function.comp_apply]
      congr 1
      omega

/-- The v2 pick loop: the produced cards copy the pool entries from
position `pi` on (as many as remain, at most `p`), and the pool index
advances to `min (pi + p) (pool.length)`. -/
theorem pickLoopV2_spec {α : Type} (pool : List α) :
    ∀ (p s pi r : Nat), pi ≤ pool.length →
      ((DraftV2.pickLoop pool s pi r p).1.map (fun card => card.character) =
        ((pool.drop pi).take p).map some) ∧
      (DraftV2.pickLoop pool s pi r p).2.2 = min (pi + p) pool.length := by
  intro p
  induction p with
  | zero =>
    intro s pi r hpi
    refine ⟨by simp [DraftV2.pickLoop], ?_⟩
    simp only [DraftV2.pickLoop]
    omega
  | succ p ih =>
    intro s pi r hpi
    simp only [DraftV2.pickLoop]
    by_cases hge : pi ≥ pool.length
    · rw [if_pos hge]
      constructor
      · rw [List.drop_eq_nil_of_le hge]
        simp
      · simp only
        omega
    · rw [if_neg hge]
      have hlt : pi < pool.length := by omega
      rcases hro : DraftV2.rollStarRating s r with ⟨stars, s'⟩
      rcases hrec : DraftV2.pickLoop pool s' (pi + 1) r p with ⟨rest, s2, pi2⟩
      obtain ⟨ih1, ih2⟩ := ih s' (pi + 1) r (by omega)
      rw [hrec] at ih1 ih2
      dsimp only at ih1 ih2 ⊢
      constructor
      · rw [List.map_cons, ih1, List.drop_eq_getElem_cons hlt, List.take_succ_cons,
          List.map_cons, List.getElem?_eq_getElem hlt]
      · omega

/-- The v2 round loop: `roundsLeft` rounds; their flattened character
parts copy the pool from position `pi` on; each round takes as many cards
as remain, at most 3 — so a round ends early exactly when the pool is
exhausted. -/
theorem roundLoopV2_spec {α : Type} (pool : List α) :
    ∀ (rl s pi r : Nat), pi ≤ pool.length →
      (DraftV2.roundLoop pool s pi r rl).length = rl ∧
      ((DraftV2.roundLoop pool s pi r rl).flatten.map (fun card => card.character) =
        ((pool.drop pi).take (3 * rl)).map some) ∧
      (∀ t, t < rl → ((DraftV2.roundLoop pool s pi r rl).getD t []).length =
        min 3 (pool.length - (pi + 3 * t))) := by
  intro rl
  induction rl with
  | zero =>
    intro s pi r _
    exact ⟨rfl, by simp [DraftV2.roundLoop], fun t ht => absurd ht (Nat.not_lt_zero t)⟩
  | succ rl ih =>
    intro s pi r hpi
    simp only [DraftV2.roundLoop]
    rcases hpk : DraftV2.pickLoop pool s pi r 3 with ⟨options, s', pi'⟩
    obtain ⟨hp1, hp2⟩ := pickLoopV2_spec pool 3 s pi r hpi
    rw [hpk] at hp1 hp2
    dsimp only at hp1 hp2
    have hpi' : pi' ≤ pool.length := by omega
    obtain ⟨ih1, ih2, ih3⟩ := ih s' pi' (r + 1) hpi'
    have hdrop : pool.drop pi' = pool.drop (pi + 3) := by
      rcases Nat.le_total (pi + 3) pool.length with h | h
      · rw [show pi' = pi + 3 by omega]
      · rw [List.drop_eq_nil_of_le h, List.drop_eq_nil_of_le (by omega)]
    refine ⟨by simp [ih1], ?_, ?_⟩
    · rw [List.flatten_cons, List.map_append, hp1, ih2, hdrop]
      have h3 : 3 * (rl + 1) = 3 + 3 * rl := by omega
      rw [h3, List.take_add, List.map_append, List.drop_drop]
    · intro t ht
      match t with
      | 0 =>
        have : options.length = ((pool.drop pi).take 3).length := by
          rw [← List.length_map (f := fun card : Draft.DraftCard α => card.character),
            hp1, List.length_map]
        simp only [List.getD_cons_zero, this, List.length_take, List.length_drop]
        omega
      | t + 1 =>
        have := ih3 t (by omega)
        simp only [List.getD_cons_succ, this]
        congr 1
        omega

/-- C5 counterexample: for the 12-round draft of `src/js/draft.js` and an
empty pool (fewer than 36 entries), the first round still holds exactly
3 option entries, none of which carries the fields of any pool character
— the round is not shortened and the pool was empty from the start. -/
theorem claim_C5_counterexample :
    ((Draft.generateAllRounds ([] : List Nat) 1).getD 0 []).length = 3 ∧
      ((Draft.generateAllRounds ([] : List Nat) 1).getD 0 []).map
        (fun card => card.character) = [none, none, none] := by
  constructor
  · rfl
  · rfl

/-- C5 as amended: the 12-round `generateAllRounds` of `src/js/draft.js`
raises no error on an undersized pool but never shortens a round — every
round holds exactly 3 entries, whose character parts read consecutive
positions of the shuffled pool (`none` once the pool is exhausted). The
9-round v2 draft of `src/unnamed/part_001` behaves as the claim says: it
stops a round early exactly when the pool is exhausted, and every
produced card copies a distinct entry of the shuffled pool (a permutation
of the input pool). -/
theorem claim_C5_amended {α : Type} (pool : List α) (seed : Nat)
    (_hp : pool.length < 36) :
    ((Draft.generateAllRounds pool seed).length = 12 ∧
      (∀ o ∈ Draft.generateAllRounds pool seed, o.length = 3) ∧
      (Draft.generateAllRounds pool seed).flatten.map (fun card => card.character) =
        (List.range 36).map (fun t => (Draft.seededShuffle pool seed).1[t]?)) ∧
    ((Draft.seededShuffle pool seed).1.Perm pool ∧
      (DraftV2.generateAllRounds pool seed).flatten.map (fun card => card.character) =
        ((Draft.seededShuffle pool seed).1.take 27).map some ∧
      (∀ t, t < 9 → ((DraftV2.generateAllRounds pool seed).getD t []).length =
        min 3 (pool.length - 3 * t))) := by
  rcases hsh : Draft.seededShuffle pool seed with ⟨pool', s1⟩
  have hperm : pool'.Perm pool := by
    have := seededShuffle_perm pool seed
    rw [hsh] at this
    exact this
  have hlen : pool'.length = pool.length := hperm.length_eq
  have hv3 : Draft.generateAllRounds pool seed = Draft.roundLoop pool' s1 0 0 12 := by
    simp [Draft.generateAllRounds, hsh]
  have hv2 : DraftV2.generateAllRounds pool seed = DraftV2.roundLoop pool' s1 0 0 9 := by
    simp [DraftV2.generateAllRounds, hsh, DraftV2.NUM_ROUNDS]
  obtain ⟨h31, h32, h33⟩ := roundLoop_spec pool' 12 s1 0 0
  obtain ⟨h21, h22, h23⟩ := roundLoopV2_spec pool' 9 s1 0 0 (Nat.zero_le _)
  refine ⟨⟨by rw [hv3]; exact h31, by rw [hv3]; exact h32, ?_⟩,
    hperm, ?_, ?_⟩
  · rw [hv3, h33]
    simp
  · rw [hv2, h22]
    simp
  · intro t ht
    rw [hv2]
    have := h23 t ht
    rw [this, hlen]
    simp

/-- Witness for C5 (amended): a one-element pool. -/
theorem claim_C5_amended_witness :
    ([3] : List Nat).length < 36 ∧
      (((Draft.generateAllRounds [3] 7).length = 12 ∧
        (∀ o ∈ Draft.generateAllRounds [3] 7, o.length = 3) ∧
        (Draft.generateAllRounds ([3] : List Nat) 7).flatten.map (fun card => card.character) =
          (List.range 36).map (fun t => (Draft.seededShuffle ([3] : List Nat) 7).1[t]?)) ∧
      ((Draft.seededShuffle ([3] : List Nat) 7).1.Perm [3] ∧
        (DraftV2.generateAllRounds ([3] : List Nat) 7).flatten.map (fun card => card.character) =
          ((Draft.seededShuffle ([3] : List Nat) 7).1.take 27).map some ∧
        (∀ t, t < 9 → ((DraftV2.generateAllRounds ([3] : List Nat) 7).getD t []).length =
          min 3 (([3] : List Nat).length - 3 * t)))) :=
  ⟨by decide, claim_C5_amended [3] 7 (by decide)⟩

/-- The adjacency lists that the fold over `EDGES` produces. -/
theorem ADJACENCY_eq : Scoring.ADJACENCY =
    [[1, 2, 3], [0, 4, 5], [0, 3, 6], [0, 4, 2, 6, 8], [1, 3, 5, 7, 8],
     [1, 4, 7], [3, 2, 8], [4, 5, 8], [3, 4, 6, 7]] := by decide

/-- The couple relation of the connection scoring is symmetric. -/
theorem isCouple_comm (a b : Scoring.Card) :
    Scoring.isCouple a b = Scoring.isCouple b a := by
  simp [Scoring.isCouple, Bool.or_comm]

theorem connBetween_points_comm (a b : Scoring.Card) (ni nj : Nat) :
    (Scoring.connBetween a b ni).points = (Scoring.connBetween b a nj).points := by
  simp only [Scoring.connBetween]
  rw [isCouple_comm, @Bool.beq_comm _ _ _ a.show_ b.show_, @Bool.beq_comm _ _ _ a.seasonNum b.seasonNum]

theorem connBetween_types_comm (a b : Scoring.Card) (ni nj : Nat) :
    (Scoring.connBetween a b ni).types = (Scoring.connBetween b a nj).types := by
  simp only [Scoring.connBetween]
  rw [isCouple_comm, @Bool.beq_comm _ _ _ a.show_ b.show_, @Bool.beq_comm _ _ _ a.seasonNum b.seasonNum]

theorem connPts_comm (x y : Option Scoring.Card) :
    Scoring.connPts x y = Scoring.connPts y x := by
  cases x with
  | none => cases y <;> rfl
  | some a =>
    cases y with
    | none => rfl
    | some b =>
      simp only [Scoring.connPts]
      rw [connBetween_points_comm a b 0 0]

theorem connPts_eq_fastEdge (x y : Option Scoring.Card) :
    Scoring.connPts x y = Scoring.fastEdgePts x y := by
  cases x with
  | none => cases y <;> rfl
  | some a =>
    cases y with
    | none => rfl
    | some b =>
      simp only [Scoring.connPts, Scoring.fastEdgePts, Scoring.connBetween,
        apply_ite Prod.fst]
      split_ifs <;> omega

theorem fastCell_eq (c : Option Scoring.Card) (i : Nat) :
    Scoring.fastCellPts c i =
      Scoring.cellSlotPts c i + Scoring.cellRarityPts c := by
  cases c with
  | none => rfl
  | some cc =>
    by_cases hw : Scoring.SLOT_TAGS.getD i none = none
    · rw [List.getD_eq_getElem?_getD] at hw
      simp [Scoring.fastCellPts, Scoring.cellSlotPts, Scoring.cellRarityPts,
        Scoring.isWildSlot, Scoring.isValidPlacement, List.getD_eq_getElem?_getD, hw]
    · obtain ⟨tag, htag⟩ := Option.ne_none_iff_exists'.mp hw
      rw [List.getD_eq_getElem?_getD] at htag
      simp [Scoring.fastCellPts, Scoring.cellSlotPts, Scoring.cellRarityPts,
        Scoring.isWildSlot, Scoring.isValidPlacement, List.getD_eq_getElem?_getD, htag]

theorem fastEdgePts_comm (x y : Option Scoring.Card) :
    Scoring.fastEdgePts x y = Scoring.fastEdgePts y x := by
  rw [← connPts_eq_fastEdge, ← connPts_eq_fastEdge, connPts_comm]

theorem fastScore_eq_total (board : List (Option Scoring.Card))
    (h : board.length = 9) :
    Scoring._fastScore board = (Scoring.calculateScore board).total := by
  rcases board with _|⟨a0,_|⟨a1,_|⟨a2,_|⟨a3,_|⟨a4,_|⟨a5,_|⟨a6,_|⟨a7,_|⟨a8,tl⟩⟩⟩⟩⟩⟩⟩⟩⟩
  all_goals first
  | (exfalso; simp at h; done)
  | skip
  have htl : tl = [] := by
    simp at h
    exact h
  subst htl
  simp only [Scoring._fastScore, Scoring.calculateScore, Scoring.scoreCell,
    Scoring.cellConnPts, Scoring.NUM_SLOTS, ADJACENCY_eq, Scoring.EDGES]
  rw [show List.range 9 = [0, 1, 2, 3, 4, 5, 6, 7, 8] from rfl]
  simp only [List.map_cons, List.map_nil, List.sum_cons, List.sum_nil]
  simp only [Scoring.scoreCell, Scoring.cellConnPts, ADJACENCY_eq]
  simp
  simp only [fastCell_eq, connPts_eq_fastEdge]
  rw [fastEdgePts_comm a1 a0, fastEdgePts_comm a2 a0, fastEdgePts_comm a2 a3,
    fastEdgePts_comm a3 a0, fastEdgePts_comm a4 a1, fastEdgePts_comm a4 a3,
    fastEdgePts_comm a5 a1, fastEdgePts_comm a5 a4, fastEdgePts_comm a6 a3,
    fastEdgePts_comm a6 a2, fastEdgePts_comm a7 a4, fastEdgePts_comm a7 a5,
    fastEdgePts_comm a8 a3, fastEdgePts_comm a8 a4, fastEdgePts_comm a8 a6,
    fastEdgePts_comm a8 a7]
  omega

/-- C3: for every 9-slot board, the fast scorer `_fastScore` used inside
the optimal search (each topology edge counted once and doubled) returns
exactly the per-cell scorer's `calculateScore(board).total`, which walks
both endpoints of every edge. -/
theorem claim_C3 (board : List (Option Scoring.Card)) (h : board.length = 9) :
    Scoring._fastScore board = (Scoring.calculateScore board).total :=
  fastScore_eq_total board h

/-- Witness for C3: a small concrete board (two USA cards of the same
season on the center pair, rest empty). -/
theorem claim_C3_witness :
    ([none, none, none,
      some { name := "a", tags := ["usa"], show_ := "lvusa", seasonNum := 2,
             couple := none, stars := 3 },
      some { name := "b", tags := ["uk"], show_ := "lvusa", seasonNum := 2,
             couple := some "a", stars := 2 },
      none, none, none, none] : List (Option Scoring.Card)).length = 9 ∧
      Scoring._fastScore
        [none, none, none,
         some { name := "a", tags := ["usa"], show_ := "lvusa", seasonNum := 2,
                couple := none, stars := 3 },
         some { name := "b", tags := ["uk"], show_ := "lvusa", seasonNum := 2,
                couple := some "a", stars := 2 },
         none, none, none, none] =
      (Scoring.calculateScore
        [none, none, none,
         some { name := "a", tags := ["usa"], show_ := "lvusa", seasonNum := 2,
                couple := none, stars := 3 },
         some { name := "b", tags := ["uk"], show_ := "lvusa", seasonNum := 2,
                couple := some "a", stars := 2 },
         none, none, none, none]).total :=
  ⟨by decide, claim_C3 _ (by decide)⟩

/-- When `j` is not in the neighbor list, no recorded connection has
neighbor index `j`. -/
theorem find_conn_none (f : Nat → Option Scoring.Conn)
    (hf : ∀ ni cn, f ni = some cn → cn.neighborIndex = ni) (j : Nat) :
    ∀ (l : List Nat), j ∉ l →
      (l.filterMap f).find? (fun cn => cn.neighborIndex == j) = none
  | [], _ => rfl
  | a :: t, hj => by
    rw [List.filterMap_cons]
    have hja : j ≠ a := fun h => hj (h ▸ List.mem_cons_self a t)
    have hjt : j ∉ t := fun h => hj (List.mem_cons_of_mem a h)
    rcases hfa : f a with _ | cn
    · exact find_conn_none f hf j t hjt
    · rw [List.find?_cons_of_neg _ (by simp only [hf _ _ hfa, beq_iff_eq]; exact fun h => hja h.symm)]
      exact find_conn_none f hf j t hjt

/-- Finding the connection with neighbor index `j` in the filtered list
over a duplicate-free neighbor list containing `j` gives exactly the
entry built for `j`. -/
theorem find_conn_filterMap (f : Nat → Option Scoring.Conn) (j : Nat)
    (hf : ∀ ni cn, f ni = some cn → cn.neighborIndex = ni) :
    ∀ (l : List Nat), l.Nodup → j ∈ l →
      (l.filterMap f).find? (fun cn => cn.neighborIndex == j) = f j
  | [], _, hj => absurd hj (List.not_mem_nil j)
  | a :: t, hnd, hj => by
    rw [List.filterMap_cons]
    rcases List.mem_cons.mp hj with rfl | hjt
    · rcases hfa : f j with _ | cn
      · exact find_conn_none f hf j t (List.nodup_cons.mp hnd).1
      · rw [List.find?_cons_of_pos _ (by simp [hf _ _ hfa])]
    · have hne : a ≠ j := fun h => (List.nodup_cons.mp hnd).1 (h ▸ hjt)
      rcases hfa : f a with _ | cn
      · exact find_conn_filterMap f j hf t (List.nodup_cons.mp hnd).2 hjt
      · rw [List.find?_cons_of_neg _ (by simp only [hf _ _ hfa, beq_iff_eq]; exact fun h => hne h)]
        exact find_conn_filterMap f j hf t (List.nodup_cons.mp hnd).2 hjt

/-- A recorded connection carries the neighbor index it was built for. -/
theorem connOpt_neighborIndex (c : Scoring.Card) (nc : Option Scoring.Card)
    (ni : Nat) (cn : Scoring.Conn) (h : Scoring.connOpt c nc ni = some cn) :
    cn.neighborIndex = ni := by
  cases nc with
  | none => simp [Scoring.connOpt] at h
  | some b =>
    simp only [Scoring.connOpt] at h
    split at h
    · cases h; rfl
    · cases h

/-- Cell `i` of the score breakdown is `scoreCell board i`. -/
theorem cellScores_getD (board : List (Option Scoring.Card)) (i : Nat)
    (hi : i < 9) :
    (Scoring.calculateScore board).cellScores.getD i default =
      Scoring.scoreCell board i := by
  show ((List.range Scoring.NUM_SLOTS).map (Scoring.scoreCell board)).getD i default =
    Scoring.scoreCell board i
  rw [List.getD_eq_getElem?_getD, List.getElem?_map]
  rw [show (List.range Scoring.NUM_SLOTS)[i]? = some i from by
    simp [Scoring.NUM_SLOTS, List.getElem?_range, hi]]
  rfl

/-- Computing the connection `calculateScore` attributes to occupied cell
`i` from a neighbor `j` of its adjacency list. -/
theorem connFrom_compute (board : List (Option Scoring.Card)) (i j : Nat)
    (ci : Scoring.Card) (hi9 : i < 9) (hci : board.getD i none = some ci)
    (hnd : (Scoring.ADJACENCY.getD i []).Nodup)
    (hj : j ∈ Scoring.ADJACENCY.getD i []) :
    Scoring.connFrom board i j = Scoring.connOpt ci (board.getD j none) j := by
  unfold Scoring.connFrom
  rw [cellScores_getD board i hi9]
  show (Scoring.cellConns board i).find? _ = _
  unfold Scoring.cellConns
  rw [hci]
  exact find_conn_filterMap _ j (fun ni cn h => connOpt_neighborIndex ci _ ni cn h)
    _ hnd hj

/-- Symmetry of the attributed points and rule tags, given the two
computed connection entries of an occupied pair. -/
theorem attributed_symm (board : List (Option Scoring.Card)) (i j : Nat)
    (ci cj : Scoring.Card)
    (h1 : Scoring.connFrom board i j = Scoring.connOpt ci (some cj) j)
    (h2 : Scoring.connFrom board j i = Scoring.connOpt cj (some ci) i) :
    Scoring.attributedPoints board i j = Scoring.attributedPoints board j i ∧
      Scoring.attributedTypes board i j = Scoring.attributedTypes board j i := by
  unfold Scoring.attributedPoints Scoring.attributedTypes
  rw [h1, h2]
  simp only [Scoring.connOpt]
  have hp := connBetween_points_comm ci cj j i
  have ht := connBetween_types_comm ci cj j i
  by_cases hpos : (Scoring.connBetween ci cj j).points > 0
  · rw [if_pos hpos, if_pos (hp ▸ hpos)]
    simp [hp, ht]
  · rw [if_neg hpos, if_neg (fun hc => hpos (hp ▸ hc))]
    simp

/-- C8: on every 9-slot board, for every topology edge `(i, j)` with both
slots occupied, the connection points `calculateScore` attributes to cell
`i` from neighbor `j` equal those attributed to cell `j` from neighbor
`i`, and the same rule tags fire on both sides. -/
theorem claim_C8 (board : List (Option Scoring.Card)) (_hlen : board.length = 9)
    (i j : Nat) (hmem : (i, j) ∈ Scoring.EDGES) (ci cj : Scoring.Card)
    (hci : board.getD i none = some ci) (hcj : board.getD j none = some cj) :
    Scoring.attributedPoints board i j = Scoring.attributedPoints board j i ∧
      Scoring.attributedTypes board i j = Scoring.attributedTypes board j i := by
  simp only [Scoring.EDGES, List.mem_cons, List.not_mem_nil, or_false,
    Prod.mk.injEq] at hmem
  rcases hmem with ⟨rfl, rfl⟩ | (⟨rfl, rfl⟩) | ⟨rfl, rfl⟩ | (⟨rfl, rfl⟩) |
    ⟨rfl, rfl⟩ | (⟨rfl, rfl⟩) | ⟨rfl, rfl⟩ | (⟨rfl, rfl⟩) | ⟨rfl, rfl⟩ |
    (⟨rfl, rfl⟩) | ⟨rfl, rfl⟩ | (⟨rfl, rfl⟩) | ⟨rfl, rfl⟩ | (⟨rfl, rfl⟩) |
    ⟨rfl, rfl⟩ | (⟨rfl, rfl⟩) <;>
  · refine attributed_symm board _ _ ci cj ?_ ?_
    · rw [connFrom_compute board _ _ ci (by decide) hci (by decide) (by decide), hcj]
    · rw [connFrom_compute board _ _ cj (by decide) hcj (by decide) (by decide), hci]

/-- Witness for C8 at the center-pair edge `(3, 4)` of a concrete board. -/
theorem claim_C8_witness :
    (([none, none, none,
       some { name := "a", tags := ["usa"], show_ := "lvusa", seasonNum := 2,
              couple := none, stars := 3 },
       some { name := "b", tags := ["uk"], show_ := "lvusa", seasonNum := 2,
              couple := some "a", stars := 2 },
       none, none, none, none] : List (Option Scoring.Card)).length = 9 ∧
      ((3 : Nat), (4 : Nat)) ∈ Scoring.EDGES) ∧
      (Scoring.attributedPoints
          [none, none, none,
           some { name := "a", tags := ["usa"], show_ := "lvusa", seasonNum := 2,
                  couple := none, stars := 3 },
           some { name := "b", tags := ["uk"], show_ := "lvusa", seasonNum := 2,
                  couple := some "a", stars := 2 },
           none, none, none, none] 3 4 =
        Scoring.attributedPoints
          [none, none, none,
           some { name := "a", tags := ["usa"], show_ := "lvusa", seasonNum := 2,
                  couple := none, stars := 3 },
           some { name := "b", tags := ["uk"], show_ := "lvusa", seasonNum := 2,
                  couple := some "a", stars := 2 },
           none, none, none, none] 4 3 ∧
        Scoring.attributedTypes
          [none, none, none,
           some { name := "a", tags := ["usa"], show_ := "lvusa", seasonNum := 2,
                  couple := none, stars := 3 },
           some { name := "b", tags := ["uk"], show_ := "lvusa", seasonNum := 2,
                  couple := some "a", stars := 2 },
           none, none, none, none] 3 4 =
        Scoring.attributedTypes
          [none, none, none,
           some { name := "a", tags := ["usa"], show_ := "lvusa", seasonNum := 2,
                  couple := none, stars := 3 },
           some { name := "b", tags := ["uk"], show_ := "lvusa", seasonNum := 2,
                  couple := some "a", stars := 2 },
           none, none, none, none] 4 3) :=
  ⟨⟨by decide, by decide⟩, claim_C8 _ (by decide) 3 4 (by decide) _ _ rfl rfl⟩

/-- `n || 0` is the identity on numbers. -/
theorem orZero_eq (n : Nat) : Scoring.orZero n = n := by
  cases n <;> rfl

/-- The `allValid` flag computed by `calculateScore` holds exactly when
every slot is occupied by a card valid for its slot. -/
theorem allValid_iff (board : List (Option Scoring.Card)) :
    (Scoring.calculateScore board).allValid = true ↔
      ∀ i, i < board.length → ∃ c, board.getD i none = some c ∧
        Scoring.isValidPlacement (some c) i = true := by
  show (board.enum.all fun p => p.2.isSome && Scoring.isValidPlacement p.2 p.1) = true ↔ _
  rw [List.all_eq_true]
  constructor
  · intro h i hi
    have hmem : (i, board[i]) ∈ board.enum := by
      rw [List.mem_enum_iff_getElem?]
      exact List.getElem?_eq_getElem hi
    have h2 := h _ hmem
    rw [Bool.and_eq_true] at h2
    obtain ⟨c, hc⟩ := Option.isSome_iff_exists.mp h2.1
    have hc' : board[i] = some c := hc
    have h22 : Scoring.isValidPlacement board[i] i = true := h2.2
    rw [hc'] at h22
    refine ⟨c, ?_, h22⟩
    simp only [List.getD_eq_getElem?_getD, List.getElem?_eq_getElem hi,
      Option.getD_some, hc']
  · intro h x hx
    rw [List.mem_enum_iff_getElem?] at hx
    have hlt : x.1 < board.length := by
      by_contra hge
      rw [List.getElem?_eq_none (Nat.le_of_not_lt hge)] at hx
      exact Option.noConfusion hx
    obtain ⟨c, hc1, hc2⟩ := h x.1 hlt
    rw [List.getD_eq_getElem?_getD, hx] at hc1
    simp only [Option.getD_some] at hc1
    rw [Bool.and_eq_true, hc1]
    exact ⟨rfl, hc2⟩

/-- C10: `isValidPlacement(null, i)` is false for every slot index
`i < 9`, and a wildcard slot (a `null` entry of `SLOT_TAGS`) accepts every
non-null contestant regardless of its tags. -/
theorem claim_C10 (i : Nat) (_hi : i < 9) :
    Scoring.isValidPlacement none i = false ∧
      (Scoring.SLOT_TAGS.getD i none = none →
        ∀ c : Scoring.Card, Scoring.isValidPlacement (some c) i = true) := by
  refine ⟨rfl, fun h c => ?_⟩
  simp only [Scoring.isValidPlacement]
  rw [h]

/-- Witness for C10 at slot 0 (a wildcard slot). -/
theorem claim_C10_witness :
    (0 : Nat) < 9 ∧
      (Scoring.isValidPlacement none 0 = false ∧
        (Scoring.SLOT_TAGS.getD 0 none = none →
          ∀ c : Scoring.Card, Scoring.isValidPlacement (some c) 0 = true)) :=
  ⟨by decide, claim_C10 0 (by decide)⟩

/-- C7: with a card list whose length is not 9 (including the empty list
standing for a missing argument), `calculateOptimal` returns the current
score itself with percentage 100 and raises no error (it is total). -/
theorem claim_C7 (cards : List Scoring.Card) (currentScore : Nat)
    (h : cards.length ≠ 9) :
    Scoring.calculateOptimal cards currentScore =
      { optimalScore := currentScore, percentage := 100 } := by
  unfold Scoring.calculateOptimal
  rw [if_pos h, orZero_eq]

/-- Witness for C7: the empty card list. -/
theorem claim_C7_witness :
    ([] : List Scoring.Card).length ≠ 9 ∧
      Scoring.calculateOptimal [] 5 = { optimalScore := 5, percentage := 100 } :=
  ⟨by decide, claim_C7 [] 5 (by decide)⟩

/-- C2: two independent calls of `generateAllRounds` on the same pool and
the same daily seed produce identical round sequences (same rounds, same
order, same cards with the same star ratings and star points) — the
embedding of the generator, with the PRNG state passed explicitly, is a
pure function of pool and seed. -/
theorem claim_C2 {α : Type} (pool : List α) (year month day gameNumber : Nat)
    (_hg : gameNumber = 1 ∨ gameNumber = 2 ∨ gameNumber = 3)
    (r1 r2 : List (List (Draft.DraftCard α)))
    (h1 : r1 = Draft.generateAllRounds pool (Draft.getDailySeed year month day gameNumber))
    (h2 : r2 = Draft.generateAllRounds pool (Draft.getDailySeed year month day gameNumber)) :
    r1 = r2 := by
  rw [h1, h2]

/-- Witness for C2: two runs on a small concrete pool and game 1 of
2026-01-01 coincide. -/
theorem claim_C2_witness :
    ((1 : Nat) = 1 ∨ (1 : Nat) = 2 ∨ (1 : Nat) = 3) ∧
      Draft.generateAllRounds [10, 20, 30] (Draft.getDailySeed 2026 1 1 1) =
        Draft.generateAllRounds [10, 20, 30] (Draft.getDailySeed 2026 1 1 1) :=
  ⟨Or.inl rfl, claim_C2 [10, 20, 30] 2026 1 1 1 (Or.inl rfl) _ _ rfl rfl⟩

/-- C9 counterexample: the claim says the seed is "within 32-bit range",
but already game 2 of 2026-10-11 yields 160447008783 > 2^32 − 1 (the seed
is only reduced to 32 bits later, inside `mulberry32`). -/
theorem claim_C9_counterexample :
    Draft.getDailySeed 2026 10 11 2 = 160447008783 ∧
      ¬(160447008783 : Nat) ≤ 2 ^ 32 - 1 := by
  constructor
  · rfl
  · decide

/-- C9 as amended: `getDailySeed` is the pure total combination
`(year·10000 + month·100 + day) · multiplier(game) + game·31337` with
multipliers `[1, 7919, 104729]`; for valid calendar dates and
`gameNumber ∈ {1,2,3}` the result is a nonnegative integer below `2^53`
(exact in a JS number) but need not fit in 32 bits. -/
theorem claim_C9_amended (year month day gameNumber : Nat)
    (hy : year ≤ 9999) (hm : 1 ≤ month ∧ month ≤ 12) (hd : 1 ≤ day ∧ day ≤ 31)
    (hg : gameNumber = 1 ∨ gameNumber = 2 ∨ gameNumber = 3) :
    Draft.getDailySeed year month day gameNumber =
      (year * 10000 + month * 100 + day) *
        ([1, 7919, 104729].getD (gameNumber - 1) 0) + gameNumber * 31337 ∧
      Draft.getDailySeed year month day gameNumber < 2 ^ 53 := by
  refine ⟨rfl, ?_⟩
  rcases hg with h | h | h <;> subst h <;> simp [Draft.getDailySeed] <;> omega

/-- Witness for C9 (amended) at 2026-10-11, game 2. -/
theorem claim_C9_amended_witness :
    ((2026 : Nat) ≤ 9999 ∧ (1 ≤ 10 ∧ (10 : Nat) ≤ 12) ∧ (1 ≤ 11 ∧ (11 : Nat) ≤ 31) ∧
      ((2 : Nat) = 1 ∨ (2 : Nat) = 2 ∨ (2 : Nat) = 3)) ∧
      (Draft.getDailySeed 2026 10 11 2 =
        (2026 * 10000 + 10 * 100 + 11) * ([1, 7919, 104729].getD (2 - 1) 0) + 2 * 31337 ∧
        Draft.getDailySeed 2026 10 11 2 < 2 ^ 53) :=
  ⟨⟨by decide, ⟨by decide, by decide⟩, ⟨by decide, by decide⟩, Or.inr (Or.inl rfl)⟩,
    claim_C9_amended 2026 10 11 2 (by decide) ⟨by decide, by decide⟩
      ⟨by decide, by decide⟩ (Or.inr (Or.inl rfl))⟩

/-- C4 counterexample: on the all-empty board every filled, non-wildcard
slot vacuously satisfies its requirement, so the claim predicts
`allValid = true`, but `calculateScore` computes `allValid = false`
(its `allValid` also requires every slot to be filled). -/
theorem claim_C4_counterexample :
    ¬(((Scoring.calculateScore (List.replicate 9 (none : Option Scoring.Card))).allValid
        = true) ↔
      (∀ i, i < 9 → ∀ c : Scoring.Card,
        (List.replicate 9 (none : Option Scoring.Card)).getD i none = some c →
        ∀ tag, Scoring.SLOT_TAGS.getD i none = some tag →
          c.tags.contains tag = true)) := by
  intro h
  have hv : (Scoring.calculateScore (List.replicate 9 (none : Option Scoring.Card))).allValid
      = true := by
    apply h.mpr
    intro i hi c hc
    interval_cases i <;> simp at hc
  have hf : (Scoring.calculateScore (List.replicate 9 (none : Option Scoring.Card))).allValid
      = false := by decide
  rw [hf] at hv
  exact Bool.noConfusion hv

/-- C4 as amended: `allValid` is true iff every slot (all nine) holds a
card valid for that slot — wildcard slots accept any card, non-wildcard
slots require their tag; a board with an empty slot always has
`allValid = false`. -/
theorem claim_C4_amended (board : List (Option Scoring.Card))
    (hlen : board.length = 9) :
    (Scoring.calculateScore board).allValid = true ↔
      ∀ i, i < 9 → ∃ c, board.getD i none = some c ∧
        Scoring.isValidPlacement (some c) i = true := by
  rw [allValid_iff, hlen]

/-- Witness for C4 (amended): a fully filled, fully valid board. -/
theorem claim_C4_amended_witness :
    ([some { name := "a", tags := [], show_ := "lv", seasonNum := 1, couple := none, stars := 1 },
      some { name := "b", tags := ["bombshell"], show_ := "lv", seasonNum := 1, couple := none, stars := 1 },
      some { name := "c", tags := [], show_ := "lv", seasonNum := 1, couple := none, stars := 1 },
      some { name := "d", tags := ["usa"], show_ := "lv", seasonNum := 1, couple := none, stars := 1 },
      some { name := "e", tags := ["uk"], show_ := "lv", seasonNum := 1, couple := none, stars := 1 },
      some { name := "f", tags := [], show_ := "lv", seasonNum := 1, couple := none, stars := 1 },
      some { name := "g", tags := [], show_ := "lv", seasonNum := 1, couple := none, stars := 1 },
      some { name := "h", tags := [], show_ := "lv", seasonNum := 1, couple := none, stars := 1 },
      some { name := "i", tags := ["casa"], show_ := "lv", seasonNum := 1, couple := none, stars := 1 }]
        : List (Option Scoring.Card)).length = 9 ∧
    ((Scoring.calculateScore
      [some { name := "a", tags := [], show_ := "lv", seasonNum := 1, couple := none, stars := 1 },
       some { name := "b", tags := ["bombshell"], show_ := "lv", seasonNum := 1, couple := none, stars := 1 },
       some { name := "c", tags := [], show_ := "lv", seasonNum := 1, couple := none, stars := 1 },
       some { name := "d", tags := ["usa"], show_ := "lv", seasonNum := 1, couple := none, stars := 1 },
       some { name := "e", tags := ["uk"], show_ := "lv", seasonNum := 1, couple := none, stars := 1 },
       some { name := "f", tags := [], show_ := "lv", seasonNum := 1, couple := none, stars := 1 },
       some { name := "g", tags := [], show_ := "lv", seasonNum := 1, couple := none, stars := 1 },
       some { name := "h", tags := [], show_ := "lv", seasonNum := 1, couple := none, stars := 1 },
       some { name := "i", tags := ["casa"], show_ := "lv", seasonNum := 1, couple := none, stars := 1 }]).allValid
      = true ↔
      ∀ i, i < 9 → ∃ c,
        ([some { name := "a", tags := [], show_ := "lv", seasonNum := 1, couple := none, stars := 1 },
          some { name := "b", tags := ["bombshell"], show_ := "lv", seasonNum := 1, couple := none, stars := 1 },
          some { name := "c", tags := [], show_ := "lv", seasonNum := 1, couple := none, stars := 1 },
          some { name := "d", tags := ["usa"], show_ := "lv", seasonNum := 1, couple := none, stars := 1 },
          some { name := "e", tags := ["uk"], show_ := "lv", seasonNum := 1, couple := none, stars := 1 },
          some { name := "f", tags := [], show_ := "lv", seasonNum := 1, couple := none, stars := 1 },
          some { name := "g", tags := [], show_ := "lv", seasonNum := 1, couple := none, stars := 1 },
          some { name := "h", tags := [], show_ := "lv", seasonNum := 1, couple := none, stars := 1 },
          some { name := "i", tags := ["casa"], show_ := "lv", seasonNum := 1, couple := none, stars := 1 }]
            : List (Option Scoring.Card)).getD i none = some c ∧
          Scoring.isValidPlacement (some c) i = true) :=
  ⟨by decide, claim_C4_amended _ (by decide)⟩

/-!
## Correctness of the permutation loop of `calculateOptimal`

The loop's control flow is independent of the board: it performs the
fixed word of swaps `W 9`. `heapSim` below proves the loop emits exactly
the boards along that word; the coverage theorems prove the boards along
`W 9` include every permutation of the starting board.
-/

/-- `applyWord` over an appended word. -/
theorem applyWord_append {α : Type} (w1 w2 : List (Nat × Nat)) (b : List α) :
    applyWord (w1 ++ w2) b = applyWord w2 (applyWord w1 b) := by
  unfold applyWord
  exact List.foldl_append _ _ _ _

/-- `wordVisits` over an appended word. -/
theorem wordVisits_append {α : Type} :
    ∀ (w1 w2 : List (Nat × Nat)) (b : List α),
    wordVisits (w1 ++ w2) b = wordVisits w1 b ++ wordVisits w2 (applyWord w1 b)
  | [], w2, b => rfl
  | s :: w1, w2, b => by
    show applySwap b s :: wordVisits (w1 ++ w2) (applySwap b s) = _
    rw [wordVisits_append w1 w2 (applySwap b s)]
    rfl

/-- A word ending in one swap visits its final board last. -/
theorem wordVisits_concat {α : Type} (w : List (Nat × Nat)) (s : Nat × Nat)
    (b : List α) :
    wordVisits (w ++ [s]) b =
      wordVisits w b ++ [applySwap (applyWord w b) s] := by
  rw [wordVisits_append]
  rfl

/-- `applySwap` commutes with `map`. -/
theorem applySwap_map {α β : Type} (f : α → β) (l : List α) (s : Nat × Nat) :
    applySwap (l.map f) s = (applySwap l s).map f := by
  rcases h1 : l[s.1]? with _ | x <;> rcases h2 : l[s.2]? with _ | y <;>
    simp [applySwap, h1, h2, List.getElem?_map]

/-- `applyWord` commutes with `map`. -/
theorem applyWord_map {α β : Type} (f : α → β) :
    ∀ (w : List (Nat × Nat)) (l : List α),
    applyWord w (l.map f) = (applyWord w l).map f
  | [], _ => rfl
  | s :: w, l => by
    simp only [applyWord, List.foldl_cons]
    rw [applySwap_map f l s]
    exact applyWord_map f w (applySwap l s)

/-- A length-9 list is the indexed read of itself over `[0, ..., 8]`. -/
theorem self_eq_range_map {α : Type} (b : List α) (d : α) (h : b.length = 9) :
    b = (List.range 9).map (fun p => b.getD p d) := by
  apply List.ext_getElem?
  intro i
  rcases Nat.lt_or_ge i 9 with hi | hi
  · rw [List.getElem?_map]
    rw [show (List.range 9)[i]? = some i from by simp [List.getElem?_range, hi]]
    have hib : i < b.length := by omega
    rw [List.getElem?_eq_getElem hib]
    simp [List.getD_eq_getElem?_getD, List.getElem?_eq_getElem hib]
  · rw [List.getElem?_eq_none (by omega), List.getElem?_eq_none (by simpa using hi)]

/-- Reading a word's action through an index list. -/
theorem applyWord_via_map {α : Type} (w : List (Nat × Nat)) (b : List α)
    (d : α) (h : b.length = 9) :
    applyWord w b = (applyWord w (List.range 9)).map (fun p => b.getD p d) := by
  have hb := self_eq_range_map b d h
  calc applyWord w b = applyWord w ((List.range 9).map (fun p => b.getD p d)) := by
        rw [← hb]
    _ = (applyWord w (List.range 9)).map (fun p => b.getD p d) :=
        applyWord_map _ w _

/-- The recursive unfolding of `netInner`. -/
theorem netInner_eq (nk : List Nat) (k v : Nat) (l : List Nat) :
    netInner nk k v l =
      if v < k then
        netInner nk k (v + 1) (nk.map (fun p => (applySwap l (sw k v)).getD p 0))
      else l := by
  unfold netInner
  by_cases h : v < k
  · rw [if_pos h, show k - v = (k - (v + 1)) + 1 from by omega]
    rw [netInnerF, if_pos h]
  · rw [if_neg h, show k - v = 0 from by omega]
    rfl

/-- `netInner` preserves length 9. -/
theorem netInner_length (nk : List Nat) (k : Nat) (hnk : nk.length = 9) :
    ∀ (d v : Nat) (l : List Nat), k - v ≤ d → l.length = 9 →
      (netInner nk k v l).length = 9 := by
  intro d
  induction d with
  | zero =>
    intro v l hd hl
    rw [netInner_eq, if_neg (by omega : ¬ v < k)]
    exact hl
  | succ d ih =>
    intro v l hd hl
    rw [netInner_eq]
    by_cases hv : v < k
    · rw [if_pos hv]
      exact ih (v + 1) _ (by omega) (by simp [hnk])
    · rw [if_neg hv]
      exact hl

/-- `netList` always has length 9. -/
theorem netList_length : ∀ k, (netList k).length = 9
  | 0 => by simp [netList]
  | k + 1 => by
    show (netInner (netList k) k 0 (netList k)).length = 9
    exact netInner_length _ k (netList_length k) (k - 0) 0 _ le_rfl (netList_length k)

/-- `applyWord` preserves length. -/
theorem applyWord_length {α : Type} :
    ∀ (w : List (Nat × Nat)) (b : List α), (applyWord w b).length = b.length
  | [], _ => rfl
  | s :: w, b => by
    show (applyWord w (applySwap b s)).length = _
    rw [applyWord_length w (applySwap b s), applySwap_length]

/-- `netInner` computes the action of the level-`k` inner word. -/
theorem netInner_eq_applyWord (k : Nat)
    (hnet : netList k = applyWord (W k) (List.range 9)) :
    ∀ (d v : Nat) (l : List Nat), k - v ≤ d → l.length = 9 →
      netInner (netList k) k v l = applyWord (innerW (W k) k v) l := by
  intro d
  induction d with
  | zero =>
    intro v l hd hl
    rw [netInner_eq, if_neg (by omega : ¬ v < k), innerW,
      if_neg (by omega : ¬ v < k)]
    rfl
  | succ d ih =>
    intro v l hd hl
    rw [netInner_eq, innerW]
    by_cases hv : v < k
    · rw [if_pos hv, if_pos hv]
      have hmap : (netList k).map (fun p => (applySwap l (sw k v)).getD p 0) =
          applyWord (W k) (applySwap l (sw k v)) := by
        rw [applyWord_via_map (W k) (applySwap l (sw k v)) 0
          (by rw [applySwap_length]; exact hl), hnet]
      have hstep : applyWord (sw k v :: (W k ++ innerW (W k) k (v + 1))) l =
          applyWord (innerW (W k) k (v + 1))
            (applyWord (W k) (applySwap l (sw k v))) := by
        show applyWord (W k ++ innerW (W k) k (v + 1)) (applySwap l (sw k v)) = _
        rw [applyWord_append]
      rw [hmap, hstep]
      exact ih (v + 1) _ (by omega)
        (by rw [applyWord_length, applySwap_length]; exact hl)
    · rw [if_neg hv, if_neg hv]
      rfl

/-- `netList k` is the net action of `W k` on `[0, ..., 8]`. -/
theorem netList_eq : ∀ k, netList k = applyWord (W k) (List.range 9)
  | 0 => rfl
  | k + 1 => by
    show netInner (netList k) k 0 (netList k) = _
    rw [netInner_eq_applyWord k (netList_eq k) (k - 0) 0
      (netList k) le_rfl (netList_length k)]
    rw [netList_eq k]
    show _ = applyWord (W k ++ innerW (W k) k 0) (List.range 9)
    rw [applyWord_append]

/-- `stage` lists have length 9. -/
theorem stage_length (k : Nat) : ∀ j, (stage k j).length = 9
  | 0 => by simp [stage]
  | j + 1 => by
    show (applySwap ((netList k).map fun p => (stage k j).getD p 0) (sw k j)).length = 9
    rw [applySwap_length, List.length_map, netList_length]

/-- `stage k (j+1)` is one level-`k` stage step past `stage k j`. -/
theorem stage_eq (k : Nat) (j : Nat) :
    stage k (j + 1) = applySwap (applyWord (W k) (stage k j)) (sw k j) := by
  show applySwap ((netList k).map fun p => (stage k j).getD p 0) (sw k j) = _
  rw [applyWord_via_map (W k) (stage k j) 0 (stage_length k j), netList_eq k]

/-- The board after the prefix word `prefW k j` reads the starting board
through the index list `stage k j`. -/
theorem stageBoard_eq {α : Type} (k : Nat) (b0 : List α) (d : α)
    (hb : b0.length = 9) :
    ∀ j, applyWord (prefW k j) b0 = (stage k j).map (fun p => b0.getD p d)
  | 0 => self_eq_range_map b0 d hb
  | j + 1 => by
    show applyWord (prefW k j ++ W k ++ [sw k j]) b0 = _
    rw [applyWord_append, applyWord_append, stageBoard_eq k b0 d hb j,
      applyWord_map]
    show applySwap ((applyWord (W k) (stage k j)).map fun p => b0.getD p d)
      (sw k j) = _
    rw [applySwap_map, ← stage_eq k j]

/-- Decomposition of `W (k+1)` at the `j`-th level-`k` stage. -/
theorem W_decomp (k : Nat) : ∀ j, j ≤ k →
    W (k + 1) = prefW k j ++ (W k ++ innerW (W k) k j)
  | 0, _ => by
    show W k ++ innerW (W k) k 0 = [] ++ (W k ++ innerW (W k) k 0)
    rw [List.nil_append]
  | j + 1, hj => by
    have ih := W_decomp k j (by omega)
    rw [ih, show innerW (W k) k j = sw k j :: (W k ++ innerW (W k) k (j + 1))
      from by rw [innerW, if_pos (by omega : j < k)]]
    show _ = (prefW k j ++ W k ++ [sw k j]) ++ (W k ++ innerW (W k) k (j + 1))
    simp [List.append_assoc]

/-- One level of the loop: starting at scan position `k` with digit value
`v` and all lower digits zero, the loop performs exactly the level-`k`
tail word from `v` and carries on at position `k + 1` with digit `k`
cleared. Takes the simulation statement for level `k` as hypothesis. -/
theorem heapAux (k : Nat) (hk1 : 1 ≤ k) (hk8 : k ≤ 8)
    (hsim : ∀ {α : Type} (b : List α) (c : Nat → Nat),
      (∀ jj, 1 ≤ jj → jj < k → c jj = 0) →
      heapVisits b c 1 = wordVisits (W k) b ++ heapVisits (applyWord (W k) b) c k) :
    ∀ (d v : Nat), v + d = k → ∀ {α : Type} (b : List α) (c : Nat → Nat),
      (∀ jj, 1 ≤ jj → jj < k → c jj = 0) → c k = v →
      heapVisits b c k =
        wordVisits (innerW (W k) k v) b ++
          heapVisits (applyWord (innerW (W k) k v) b) (cset c k 0) (k + 1) := by
  intro d
  induction d with
  | zero =>
    intro v hv α b c _hc hck
    rw [innerW, if_neg (by omega : ¬ v < k)]
    rw [heapVisits, dif_pos (by omega : k < 9),
      dif_neg (by omega : ¬ c k < k)]
    rw [show wordVisits ([] : List (Nat × Nat)) b = [] from rfl,
      List.nil_append]
    rfl
  | succ d ih =>
    intro v hv α b c hc hck
    have hvk : v < k := by omega
    rw [heapVisits, dif_pos (by omega : k < 9), dif_pos (by omega : c k < k)]
    have hsw : (if k % 2 = 0 then ((0 : Nat), k) else (c k, k)) = sw k v := by
      rw [hck, sw]
    rw [hsw]
    show applySwap b (sw k v) ::
      heapVisits (applySwap b (sw k v)) (cset c k (c k + 1)) 1 = _
    have hc' : ∀ jj, 1 ≤ jj → jj < k → cset c k (c k + 1) jj = 0 := by
      intro jj h1 h2
      simp only [cset, if_neg (by omega : ¬ jj = k)]
      exact hc jj h1 h2
    rw [hsim (applySwap b (sw k v)) (cset c k (c k + 1)) hc']
    rw [ih (v + 1) (by omega) (applyWord (W k) (applySwap b (sw k v)))
      (cset c k (c k + 1)) hc' (by simp [cset, hck])]
    rw [show cset (cset c k (c k + 1)) k 0 = cset c k 0 from
      funext fun j => by by_cases hj : j = k <;> simp [cset, hj]]
    rw [show innerW (W k) k v = sw k v :: (W k ++ innerW (W k) k (v + 1)) from
      by rw [innerW, if_pos hvk]]
    rw [show wordVisits (sw k v :: (W k ++ innerW (W k) k (v + 1))) b =
      applySwap b (sw k v) ::
        wordVisits (W k ++ innerW (W k) k (v + 1)) (applySwap b (sw k v))
      from rfl]
    rw [wordVisits_append]
    rw [show applyWord (sw k v :: (W k ++ innerW (W k) k (v + 1))) b =
      applyWord (W k ++ innerW (W k) k (v + 1)) (applySwap b (sw k v)) from rfl]
    rw [applyWord_append]
    simp [List.append_assoc]

/-- Simulation: from a state with all digits below `k` zero, the loop
emits the boards along `W k` and then rescans at position `k`. -/
theorem heapSim : ∀ (k : Nat), 1 ≤ k → k ≤ 9 →
    ∀ {α : Type} (b : List α) (c : Nat → Nat),
      (∀ jj, 1 ≤ jj → jj < k → c jj = 0) →
      heapVisits b c 1 = wordVisits (W k) b ++ heapVisits (applyWord (W k) b) c k := by
  intro k
  induction k with
  | zero => intro h; omega
  | succ k ih =>
    intro _hk1 hk9 α b c hc
    by_cases hk0 : k = 0
    · subst hk0
      rw [show W 1 = [] from by rw [W, innerW]; rfl]
      rfl
    · have hk1' : 1 ≤ k := by omega
      have hk8 : k ≤ 8 := by omega
      rw [ih hk1' (by omega) b c (fun jj h1 h2 => hc jj h1 (by omega))]
      rw [heapAux k hk1' hk8 (fun b' c' hc' => ih hk1' (by omega) b' c' hc')
        k 0 (by omega) (applyWord (W k) b) c
        (fun jj h1 h2 => hc jj h1 (by omega)) (hc k hk1' (by omega))]
      rw [show cset c k 0 = c from funext fun j => by
        by_cases hj : j = k
        · rw [hj]
          simp only [cset, if_pos rfl]
          exact (hc k hk1' (by omega)).symm
        · simp [cset, hj]]
      rw [show W (k + 1) = W k ++ innerW (W k) k 0 from rfl,
        wordVisits_append, applyWord_append, List.append_assoc]

/-- The permutation loop of `calculateOptimal`, started from the zero
counter, visits exactly the boards along the full swap word `W 9`. -/
theorem heapVisits_eq_wordVisits {α : Type} (b : List α) :
    heapVisits b (fun _ => 0) 1 = wordVisits (W 9) b := by
  rw [heapSim 9 (by omega) (by omega) b (fun _ => 0) (fun _ _ _ => rfl)]
  rw [show heapVisits (applyWord (W 9) b) (fun _ => 0) 9 = [] from by
    rw [heapVisits, dif_neg (by omega : ¬ (9 : Nat) < 9)]]
  rw [List.append_nil]

/-- The accumulator of a running-max fold never decreases. -/
theorem foldl_step_init_le {β : Type} (f : β → Nat) :
    ∀ (l : List β) (best : Nat),
      best ≤ l.foldl (fun acc x => if f x > acc then f x else acc) best
  | [], _ => le_rfl
  | x :: l, best => by
    refine le_trans ?_ (foldl_step_init_le f l _)
    by_cases h : f x > best <;> simp [h] <;> omega

/-- A running-max fold dominates every list element's value. -/
theorem foldl_step_mem_le {β : Type} (f : β → Nat) :
    ∀ (l : List β) (best : Nat) (y : β), y ∈ l →
      f y ≤ l.foldl (fun acc x => if f x > acc then f x else acc) best
  | x :: l, best, y, hy => by
    rcases List.mem_cons.mp hy with rfl | hyl
    · refine le_trans ?_ (foldl_step_init_le f l _)
      by_cases h : f y > best <;> simp [h] <;> omega
    · exact foldl_step_mem_le f l _ y hyl

/-- The initial accumulator is below the `heapStep` fold. -/
theorem heapStep_fold_init_le (l : List (List (Option Scoring.Card))) (best : Nat) :
    best ≤ l.foldl Scoring.heapStep best := by
  have h : List.foldl Scoring.heapStep best l =
      List.foldl (fun acc x =>
        if Scoring._fastScore x > acc then Scoring._fastScore x else acc) best l := rfl
  rw [h]
  exact foldl_step_init_le Scoring._fastScore l best

/-- The `heapStep` fold dominates every visited board's score. -/
theorem heapStep_fold_mem_le (l : List (List (Option Scoring.Card))) (best : Nat)
    (y : List (Option Scoring.Card)) (hy : y ∈ l) :
    Scoring._fastScore y ≤ l.foldl Scoring.heapStep best := by
  have h : List.foldl Scoring.heapStep best l =
      List.foldl (fun acc x =>
        if Scoring._fastScore x > acc then Scoring._fastScore x else acc) best l := rfl
  rw [h]
  exact foldl_step_mem_le Scoring._fastScore l best y hy

/-- The max-accumulating loop equals a fold of the running-max update
over the visited boards. -/
theorem heapLoop_eq_fold :
    ∀ (n : Nat) (b : List (Option Scoring.Card)) (c : Nat → Nat) (i best : Nat),
      heapMeasure c i ≤ n →
      Scoring.heapLoop b c i best = (heapVisits b c i).foldl Scoring.heapStep best
  | 0, b, c, i, best, hm => by
    have h9 : ¬ i < 9 := by
      intro hlt
      simp only [heapMeasure] at hm
      omega
    rw [Scoring.heapLoop.eq_def, dif_neg h9, heapVisits.eq_def, dif_neg h9]
    rfl
  | n + 1, b, c, i, best, hm => by
    by_cases h9 : i < 9
    · by_cases hA : c i < i
      · rw [Scoring.heapLoop.eq_def, dif_pos h9, dif_pos hA,
          heapVisits.eq_def, dif_pos h9, dif_pos hA]
        show Scoring.heapLoop (applySwap b (if i % 2 = 0 then (0, i) else (c i, i)))
            (cset c i (c i + 1)) 1
            (if Scoring._fastScore (applySwap b (if i % 2 = 0 then (0, i) else (c i, i))) > best
             then Scoring._fastScore (applySwap b (if i % 2 = 0 then (0, i) else (c i, i)))
             else best) = _
        rw [heapLoop_eq_fold n (applySwap b (if i % 2 = 0 then (0, i) else (c i, i)))
          (cset c i (c i + 1)) 1
          (if Scoring._fastScore (applySwap b (if i % 2 = 0 then (0, i) else (c i, i))) > best
           then Scoring._fastScore (applySwap b (if i % 2 = 0 then (0, i) else (c i, i)))
           else best)
          (by have := heapMeasure_A c i h9 hA; omega)]
        rw [List.foldl_cons]
        rw [show Scoring.heapStep best (applySwap b (if i % 2 = 0 then (0, i) else (c i, i))) =
          (if Scoring._fastScore (applySwap b (if i % 2 = 0 then (0, i) else (c i, i))) > best
           then Scoring._fastScore (applySwap b (if i % 2 = 0 then (0, i) else (c i, i)))
           else best) from rfl]
      · rw [Scoring.heapLoop.eq_def, dif_pos h9, dif_neg hA,
          heapVisits.eq_def, dif_pos h9, dif_neg hA]
        exact heapLoop_eq_fold n b (cset c i 0) (i + 1) best
          (by have := heapMeasure_B c i h9 hA; omega)
    · rw [Scoring.heapLoop.eq_def, dif_neg h9, heapVisits.eq_def, dif_neg h9]
      rfl

/-- Base case of coverage: along `W 1` (the empty word), the only board
reachable by permuting the first entry alone is the start itself. -/
theorem covers_one : Covers 1 := by
  intro α b p hb hp htake hdrop
  rcases p with _ | ⟨ph, pt⟩
  · simp at hp
  rcases b with _ | ⟨bh, bt⟩
  · simp at hb
  have h1 : ph = bh := by simpa using htake
  have h2 : pt = bt := by simpa using hdrop
  rw [h1, h2]
  exact List.mem_cons_self _ _

/-- Inductive step of coverage: if the visits along `W k` cover all
permutations of the first `k` entries, then — given the computed facts
about the level-`k` stages — the visits along `W (k+1)` cover all
permutations of the first `k+1` entries. -/
theorem covers_step (k : Nat) (hk8 : k ≤ 8)
    (hF1 : ∀ j, j ≤ k → ∀ i, k < i → i < 9 → (stage k j).getD i 0 = i)
    (hF2 : ∀ m, m ≤ k → ∃ j, j ≤ k ∧ (stage k j).getD k 0 = m)
    (hF4 : ∀ j, j ≤ k →
      List.Perm ((stage k j).take (k + 1)) (List.range (k + 1)))
    (ih : Covers k) : Covers (k + 1) := by
  intro α b p hb hp htake hdrop
  have hbne : b ≠ [] := by intro h; rw [h] at hb; simp at hb
  have d : α := b.head hbne
  have hpk : k < p.length := by omega
  have hptake : p.take (k + 1) = p.take k ++ [p[k]] := by
    rw [List.take_succ, List.getElem?_eq_getElem hpk]
    rfl
  have hmemb : p[k] ∈ b.take (k + 1) := by
    refine htake.mem_iff.mp ?_
    rw [hptake]
    exact List.mem_append_right _ (List.mem_singleton.mpr rfl)
  obtain ⟨m, hmlt, hbm⟩ := List.mem_iff_getElem.mp hmemb
  have hmk : m ≤ k := by
    have hl : (b.take (k + 1)).length = k + 1 := by
      rw [List.length_take]
      omega
    omega
  have hm9 : m < b.length := by omega
  have hbm' : b[m] = p[k] := by
    rw [← hbm, List.getElem_take]
  obtain ⟨j, hj, hsj⟩ := hF2 m hmk
  have hBj : applyWord (prefW k j) b =
      (stage k j).map (fun q => b.getD q d) := stageBoard_eq k b d hb j
  have hlenstage : (stage k j).length = 9 := stage_length k j
  have hbjlen : (applyWord (prefW k j) b).length = 9 := by
    rw [hBj, List.length_map, hlenstage]
  have hbjk : (applyWord (prefW k j) b)[k]? = some p[k] := by
    rw [hBj, List.getElem?_map,
      List.getElem?_eq_getElem (show k < (stage k j).length by omega)]
    have h1 : (stage k j)[k] = m := by
      rw [← hsj]
      exact (List.getD_eq_getElem (stage k j) 0 (by omega)).symm
    rw [h1]
    show some (b.getD m d) = some p[k]
    rw [List.getD_eq_getElem b d hm9, hbm']
  have hbjdrop : (applyWord (prefW k j) b).drop (k + 1) = b.drop (k + 1) := by
    apply List.ext_getElem?
    intro i
    rw [List.getElem?_drop, List.getElem?_drop]
    by_cases hi : k + 1 + i < 9
    · rw [hBj, List.getElem?_map,
        List.getElem?_eq_getElem (show k + 1 + i < (stage k j).length by omega)]
      have h1 : (stage k j)[k + 1 + i] = k + 1 + i := by
        have h2 := hF1 j hj (k + 1 + i) (by omega) (by omega)
        rw [← List.getD_eq_getElem (stage k j) 0
          (show k + 1 + i < (stage k j).length by omega)]
        exact h2
      rw [h1]
      show some (b.getD (k + 1 + i) d) = b[k + 1 + i]?
      rw [List.getD_eq_getElem b d (show k + 1 + i < b.length by omega),
        List.getElem?_eq_getElem (show k + 1 + i < b.length by omega)]
    · rw [List.getElem?_eq_none (by rw [hbjlen]; omega),
        List.getElem?_eq_none (by omega)]
  have hbjtake : List.Perm ((applyWord (prefW k j) b).take (k + 1))
      (b.take (k + 1)) := by
    rw [hBj, ← List.map_take]
    have h2 : b.take (k + 1) = (List.range (k + 1)).map (fun q => b.getD q d) := by
      conv_lhs => rw [self_eq_range_map b d hb]
      rw [← List.map_take, List.take_range, show min (k + 1) 9 = k + 1 from by omega]
    rw [h2]
    exact (hF4 j hj).map _
  have htakek : List.Perm (p.take k) ((applyWord (prefW k j) b).take k) := by
    have e2 : (applyWord (prefW k j) b).take (k + 1) =
        (applyWord (prefW k j) b).take k ++ [p[k]] := by
      rw [List.take_succ, hbjk]
      rfl
    have hcat : List.Perm (p.take k ++ [p[k]])
        ((applyWord (prefW k j) b).take k ++ [p[k]]) := by
      rw [← hptake, ← e2]
      exact htake.trans hbjtake.symm
    exact (List.perm_append_right_iff _).mp hcat
  have hdropk : p.drop k = (applyWord (prefW k j) b).drop k := by
    apply List.ext_getElem?
    intro i
    rw [List.getElem?_drop, List.getElem?_drop]
    rcases Nat.eq_zero_or_pos i with hi0 | hipos
    · subst hi0
      rw [Nat.add_zero, hbjk, List.getElem?_eq_getElem hpk]
    · obtain ⟨u, rfl⟩ : ∃ u, i = u + 1 := ⟨i - 1, by omega⟩
      have e1 : k + (u + 1) = (k + 1) + u := by omega
      rw [e1, ← List.getElem?_drop p (k + 1) u,
        ← List.getElem?_drop (applyWord (prefW k j) b) (k + 1) u,
        hdrop, hbjdrop]
  have hmem2 : p ∈ applyWord (prefW k j) b ::
      wordVisits (W k) (applyWord (prefW k j) b) :=
    ih (applyWord (prefW k j) b) p hbjlen hp htakek hdropk
  have hvis : wordVisits (W (k + 1)) b =
      wordVisits (prefW k j) b ++
        (wordVisits (W k) (applyWord (prefW k j) b) ++
          wordVisits (innerW (W k) k j)
            (applyWord (W k) (applyWord (prefW k j) b))) := by
    rw [W_decomp k j hj, wordVisits_append, wordVisits_append]
  rcases List.mem_cons.mp hmem2 with hpeq | hpin
  · rcases Nat.eq_zero_or_pos j with hj0 | hjpos
    · subst hj0
      have hid : applyWord (prefW k 0) b = b := rfl
      rw [hid] at hpeq
      rw [hpeq]
      exact List.mem_cons_self _ _
    · obtain ⟨j', rfl⟩ : ∃ u, j = u + 1 := ⟨j - 1, by omega⟩
      have hconc : wordVisits (prefW k (j' + 1)) b =
          wordVisits (prefW k j' ++ W k) b ++
            [applySwap (applyWord (prefW k j' ++ W k) b) (sw k j')] := by
        rw [show prefW k (j' + 1) = (prefW k j' ++ W k) ++ [sw k j'] from rfl]
        exact wordVisits_concat _ _ _
      have hbj_last : applyWord (prefW k (j' + 1)) b =
          applySwap (applyWord (prefW k j' ++ W k) b) (sw k j') := by
        rw [show prefW k (j' + 1) = (prefW k j' ++ W k) ++ [sw k j'] from rfl,
          applyWord_append]
        rfl
      have hin : p ∈ wordVisits (prefW k (j' + 1)) b := by
        rw [hconc, hpeq, hbj_last]
        exact List.mem_append_right _ (List.mem_singleton.mpr rfl)
      refine List.mem_cons_of_mem _ ?_
      rw [hvis]
      exact List.mem_append_left _ hin
  · refine List.mem_cons_of_mem _ ?_
    rw [hvis]
    exact List.mem_append_right _ (List.mem_append_left _ hpin)

/-- Turns the computed boolean stage-fixing fact into its propositional
form: every level-`k` stage fixes the positions above `k`. -/
theorem F1_of_bool (k : Nat)
    (h : ((List.range (k + 1)).all (fun j =>
      (List.range 9).all (fun i =>
        decide (i ≤ k) || ((stage k j).getD i 0 == i)))) = true) :
    ∀ j, j ≤ k → ∀ i, k < i → i < 9 → (stage k j).getD i 0 = i := by
  intro j hj i hik hi9
  have h1 := List.all_eq_true.mp h j (List.mem_range.mpr (by omega))
  have h2 := List.all_eq_true.mp h1 i (List.mem_range.mpr hi9)
  simp only [Bool.or_eq_true, decide_eq_true_eq, beq_iff_eq] at h2
  rcases h2 with h2 | h2
  · omega
  · exact h2

/-- Turns the computed boolean origin-coverage fact into its
propositional form: across the level-`k` stages, position `k` holds each
of the first `k+1` original entries at least once. -/
theorem F2_of_bool (k : Nat)
    (h : ((List.range (k + 1)).all (fun m =>
      (List.range (k + 1)).any (fun j => (stage k j).getD k 0 == m))) = true) :
    ∀ m, m ≤ k → ∃ j, j ≤ k ∧ (stage k j).getD k 0 = m := by
  intro m hm
  have h1 := List.all_eq_true.mp h m (List.mem_range.mpr (by omega))
  obtain ⟨j, hjmem, hjeq⟩ := List.any_eq_true.mp h1
  exact ⟨j, by have := List.mem_range.mp hjmem; omega, by simpa using hjeq⟩

/-- Turns the computed boolean stage-permutation fact into its
propositional form: the first `k+1` entries of every level-`k` stage are
a permutation of `0..k`. -/
theorem F4_of_bool (k : Nat)
    (h : ((List.range (k + 1)).all (fun j =>
      ((stage k j).take (k + 1)).isPerm (List.range (k + 1)))) = true) :
    ∀ j, j ≤ k → List.Perm ((stage k j).take (k + 1)) (List.range (k + 1)) := by
  intro j hj
  have h1 := List.all_eq_true.mp h j (List.mem_range.mpr (by omega))
  exact List.isPerm_iff.mp h1

/-- Full coverage: the boards visited along `W 9` (with the start)
include every permutation of the starting board. -/
theorem covers_nine : Covers 9 := by
  have c1 : Covers 1 := covers_one
  have c2 : Covers 2 := covers_step 1 (by omega)
    (F1_of_bool 1 (by decide)) (F2_of_bool 1 (by decide)) (F4_of_bool 1 (by decide)) c1
  have c3 : Covers 3 := covers_step 2 (by omega)
    (F1_of_bool 2 (by decide)) (F2_of_bool 2 (by decide)) (F4_of_bool 2 (by decide)) c2
  have c4 : Covers 4 := covers_step 3 (by omega)
    (F1_of_bool 3 (by decide)) (F2_of_bool 3 (by decide)) (F4_of_bool 3 (by decide)) c3
  have c5 : Covers 5 := covers_step 4 (by omega)
    (F1_of_bool 4 (by decide)) (F2_of_bool 4 (by decide)) (F4_of_bool 4 (by decide)) c4
  have c6 : Covers 6 := covers_step 5 (by omega)
    (F1_of_bool 5 (by decide)) (F2_of_bool 5 (by decide)) (F4_of_bool 5 (by decide)) c5
  have c7 : Covers 7 := covers_step 6 (by omega)
    (F1_of_bool 6 (by decide)) (F2_of_bool 6 (by decide)) (F4_of_bool 6 (by decide)) c6
  have c8 : Covers 8 := covers_step 7 (by omega)
    (F1_of_bool 7 (by decide)) (F2_of_bool 7 (by decide)) (F4_of_bool 7 (by decide)) c7
  have c9 : Covers 9 := covers_step 8 (by omega)
    (F1_of_bool 8 (by decide)) (F2_of_bool 8 (by decide)) (F4_of_bool 8 (by decide)) c8
  exact c9

/-- The permutation loop's result dominates the fast score of every
permutation of the starting board. -/
theorem heapLoop_ge (b0 p : List (Option Scoring.Card)) (hb : b0.length = 9)
    (hperm : List.Perm p b0) :
    Scoring._fastScore p ≤
      Scoring.heapLoop b0 (fun _ => 0) 1 (Scoring._fastScore b0) := by
  have hp : p.length = 9 := by rw [hperm.length_eq, hb]
  have hcov := covers_nine b0 p hb hp
    (by
      rw [List.take_of_length_le (by omega), List.take_of_length_le (by omega)]
      exact hperm)
    (by rw [List.drop_eq_nil_of_le (by omega), List.drop_eq_nil_of_le (by omega)])
  rw [heapLoop_eq_fold (heapMeasure (fun _ => 0) 1) b0 (fun _ => 0) 1
    (Scoring._fastScore b0) le_rfl]
  rw [heapVisits_eq_wordVisits]
  rcases List.mem_cons.mp hcov with hpe | hpm
  · rw [hpe]
    exact heapStep_fold_init_le _ _
  · exact heapStep_fold_mem_le _ _ _ hpm

/-- With exactly 9 cards, `optimalScore` is the loop's running maximum
started from the initial arrangement's fast score. -/
theorem calculateOptimal_optimalScore (cards : List Scoring.Card)
    (h9 : cards.length = 9) (cur : Nat) :
    (Scoring.calculateOptimal cards cur).optimalScore =
      Scoring.heapLoop (cards.map some) (fun _ => 0) 1
        (Scoring._fastScore (cards.map some)) := by
  rw [Scoring.calculateOptimal, if_neg (by rw [h9]; exact fun hc => hc rfl)]

/-- With exactly 9 cards, `percentage` is the rounded ratio against the
loop's running maximum (or `100` when that maximum is zero). -/
theorem calculateOptimal_percentage (cards : List Scoring.Card)
    (h9 : cards.length = 9) (cur : Nat) :
    (Scoring.calculateOptimal cards cur).percentage =
      (if Scoring.heapLoop (cards.map some) (fun _ => 0) 1
          (Scoring._fastScore (cards.map some)) > 0
       then Scoring.jsRound ((cur : ℚ) /
         ((Scoring.heapLoop (cards.map some) (fun _ => 0) 1
           (Scoring._fastScore (cards.map some)) : Nat) : ℚ) * 100)
       else 100) := by
  rw [Scoring.calculateOptimal, if_neg (by rw [h9]; exact fun hc => hc rfl)]

/-- `Math.round(q)` stays within `[0, 100]` when `q` does. -/
theorem jsRound_bounds (q : ℚ) (h0 : 0 ≤ q) (h100 : q ≤ 100) :
    0 ≤ Scoring.jsRound q ∧ Scoring.jsRound q ≤ 100 := by
  constructor
  · rw [Scoring.jsRound]
    apply Int.le_floor.mpr
    push_cast
    linarith
  · rw [Scoring.jsRound]
    have hlt : (⌊q + 1 / 2⌋ : ℤ) < 101 := by
      apply Int.floor_lt.mpr
      push_cast
      linarith
    omega

/-- C1: for every array of exactly 9 draft cards and every
`currentScore` achievable as `calculateScore(B).total` for some
arrangement `B` of those cards on the 9 slots,
`calculateOptimal(cards, currentScore).optimalScore ≥ currentScore`. -/
theorem claim_C1 (cards : List Scoring.Card) (h9 : cards.length = 9)
    (B : List (Option Scoring.Card)) (hB : List.Perm B (cards.map some))
    (currentScore : Nat)
    (hcur : currentScore = (Scoring.calculateScore B).total) :
    (Scoring.calculateOptimal cards currentScore).optimalScore ≥ currentScore := by
  have hBlen : B.length = 9 := by rw [hB.length_eq, List.length_map, h9]
  have hfast : Scoring._fastScore B = currentScore := by
    rw [hcur]
    exact fastScore_eq_total B hBlen
  rw [calculateOptimal_optimalScore cards h9 currentScore]
  show currentScore ≤ _
  rw [← hfast]
  exact heapLoop_ge (cards.map some) B (by rw [List.length_map]; exact h9) hB

/-- Witness for C1: nine identical cards, current score of the identity
arrangement. -/
theorem claim_C1_witness :
    (List.replicate 9
      ({ name := "a", tags := [], show_ := "s", seasonNum := 1,
         couple := none, stars := 1 } : Scoring.Card)).length = 9 ∧
    (Scoring.calculateOptimal
      (List.replicate 9
        ({ name := "a", tags := [], show_ := "s", seasonNum := 1,
           couple := none, stars := 1 } : Scoring.Card))
      ((Scoring.calculateScore
        ((List.replicate 9
          ({ name := "a", tags := [], show_ := "s", seasonNum := 1,
             couple := none, stars := 1 } : Scoring.Card)).map some)).total)).optimalScore ≥
      (Scoring.calculateScore
        ((List.replicate 9
          ({ name := "a", tags := [], show_ := "s", seasonNum := 1,
             couple := none, stars := 1 } : Scoring.Card)).map some)).total :=
  ⟨by decide, claim_C1 _ (by decide) _ (List.Perm.refl _) _ rfl⟩

/-- C6: with 9 cards and an achievable `currentScore`, the returned
`percentage` is `round(currentScore / optimalScore * 100)` when
`optimalScore > 0`, is `100` when `optimalScore = 0`, and always lies in
`[0, 100]`. -/
theorem claim_C6 (cards : List Scoring.Card) (h9 : cards.length = 9)
    (B : List (Option Scoring.Card)) (hB : List.Perm B (cards.map some))
    (currentScore : Nat)
    (hcur : currentScore = (Scoring.calculateScore B).total) :
    ((Scoring.calculateOptimal cards currentScore).optimalScore > 0 →
      (Scoring.calculateOptimal cards currentScore).percentage =
        Scoring.jsRound ((currentScore : ℚ) /
          (((Scoring.calculateOptimal cards currentScore).optimalScore : Nat) : ℚ)
          * 100)) ∧
    ((Scoring.calculateOptimal cards currentScore).optimalScore = 0 →
      (Scoring.calculateOptimal cards currentScore).percentage = 100) ∧
    0 ≤ (Scoring.calculateOptimal cards currentScore).percentage ∧
    (Scoring.calculateOptimal cards currentScore).percentage ≤ 100 := by
  have hBlen : B.length = 9 := by rw [hB.length_eq, List.length_map, h9]
  have hfast : Scoring._fastScore B = currentScore := by
    rw [hcur]
    exact fastScore_eq_total B hBlen
  have hcurle : currentScore ≤
      Scoring.heapLoop (cards.map some) (fun _ => 0) 1
        (Scoring._fastScore (cards.map some)) := by
    rw [← hfast]
    exact heapLoop_ge (cards.map some) B (by rw [List.length_map]; exact h9) hB
  rw [calculateOptimal_optimalScore cards h9 currentScore,
    calculateOptimal_percentage cards h9 currentScore]
  set L := Scoring.heapLoop (cards.map some) (fun _ => 0) 1
    (Scoring._fastScore (cards.map some)) with hLdef
  have hbounds : L > 0 →
      0 ≤ (currentScore : ℚ) / (L : ℚ) * 100 ∧
      (currentScore : ℚ) / (L : ℚ) * 100 ≤ 100 := by
    intro hpos
    have hLpos : (0 : ℚ) < (L : ℚ) := by exact_mod_cast hpos
    have h1 : (currentScore : ℚ) ≤ (L : ℚ) := by exact_mod_cast hcurle
    have h2 : (currentScore : ℚ) / (L : ℚ) ≤ 1 := (div_le_one hLpos).mpr h1
    have h3 : (0 : ℚ) ≤ (currentScore : ℚ) / (L : ℚ) :=
      div_nonneg (by positivity) (le_of_lt hLpos)
    constructor
    · linarith
    · linarith
  refine ⟨?_, ?_, ?_, ?_⟩
  · intro hpos
    rw [if_pos hpos]
  · intro hzero
    rw [if_neg (by omega)]
  · by_cases hpos : L > 0
    · rw [if_pos hpos]
      exact (jsRound_bounds _ (hbounds hpos).1 (hbounds hpos).2).1
    · rw [if_neg hpos]
      omega
  · by_cases hpos : L > 0
    · rw [if_pos hpos]
      exact (jsRound_bounds _ (hbounds hpos).1 (hbounds hpos).2).2
    · rw [if_neg hpos]

/-- Witness for C6: nine identical cards, current score of the identity
arrangement. -/
theorem claim_C6_witness :
    (List.replicate 9
      ({ name := "b", tags := [], show_ := "t", seasonNum := 2,
         couple := none, stars := 1 } : Scoring.Card)).length = 9 ∧
    (((Scoring.calculateOptimal
        (List.replicate 9
          ({ name := "b", tags := [], show_ := "t", seasonNum := 2,
             couple := none, stars := 1 } : Scoring.Card))
        ((Scoring.calculateScore
          ((List.replicate 9
            ({ name := "b", tags := [], show_ := "t", seasonNum := 2,
               couple := none, stars := 1 } : Scoring.Card)).map some)).total)).optimalScore > 0 →
      (Scoring.calculateOptimal
        (List.replicate 9
          ({ name := "b", tags := [], show_ := "t", seasonNum := 2,
             couple := none, stars := 1 } : Scoring.Card))
        ((Scoring.calculateScore
          ((List.replicate 9
            ({ name := "b", tags := [], show_ := "t", seasonNum := 2,
               couple := none, stars := 1 } : Scoring.Card)).map some)).total)).percentage =
        Scoring.jsRound
          ((((Scoring.calculateScore
            ((List.replicate 9
              ({ name := "b", tags := [], show_ := "t", seasonNum := 2,
                 couple := none, stars := 1 } : Scoring.Card)).map some)).total : Nat) : ℚ) /
          (((Scoring.calculateOptimal
            (List.replicate 9
              ({ name := "b", tags := [], show_ := "t", seasonNum := 2,
                 couple := none, stars := 1 } : Scoring.Card))
            ((Scoring.calculateScore
              ((List.replicate 9
                ({ name := "b", tags := [], show_ := "t", seasonNum := 2,
                   couple := none, stars := 1 } : Scoring.Card)).map some)).total)).optimalScore : Nat) : ℚ)
          * 100)) ∧
    ((Scoring.calculateOptimal
        (List.replicate 9
          ({ name := "b", tags := [], show_ := "t", seasonNum := 2,
             couple := none, stars := 1 } : Scoring.Card))
        ((Scoring.calculateScore
          ((List.replicate 9
            ({ name := "b", tags := [], show_ := "t", seasonNum := 2,
               couple := none, stars := 1 } : Scoring.Card)).map some)).total)).optimalScore = 0 →
      (Scoring.calculateOptimal
        (List.replicate 9
          ({ name := "b", tags := [], show_ := "t", seasonNum := 2,
             couple := none, stars := 1 } : Scoring.Card))
        ((Scoring.calculateScore
          ((List.replicate 9
            ({ name := "b", tags := [], show_ := "t", seasonNum := 2,
               couple := none, stars := 1 } : Scoring.Card)).map some)).total)).percentage = 100) ∧
    0 ≤ (Scoring.calculateOptimal
        (List.replicate 9
          ({ name := "b", tags := [], show_ := "t", seasonNum := 2,
             couple := none, stars := 1 } : Scoring.Card))
        ((Scoring.calculateScore
          ((List.replicate 9
            ({ name := "b", tags := [], show_ := "t", seasonNum := 2,
               couple := none, stars := 1 } : Scoring.Card)).map some)).total)).percentage ∧
    (Scoring.calculateOptimal
        (List.replicate 9
          ({ name := "b", tags := [], show_ := "t", seasonNum := 2,
             couple := none, stars := 1 } : Scoring.Card))
        ((Scoring.calculateScore
          ((List.replicate 9
            ({ name := "b", tags := [], show_ := "t", seasonNum := 2,
               couple := none, stars := 1 } : Scoring.Card)).map some)).total)).percentage ≤ 100) :=
  ⟨by decide, claim_C6 _ (by decide) _ (List.Perm.refl _) _ rfl⟩
